import Mathlib

/-!
Verification of the Simpleboot x86 loader (src/loader_x86.c) against its
natural-language specification.  The C code is shallowly embedded: machine
integers become `Nat` with explicit `% 2^w` or masking where overflow or
truncation matters, memory buffers become lists or functions, and the
firmware services (disk sector reads, EFI boot services) become explicit
functional parameters.  Each definition cites the C function and line
numbers it was translated from.
-/

set_option maxRecDepth 8000

namespace Simpleboot

/-- `(n + 7) & ~7`: round up to a multiple of 8 (tag alignment). -/
def align8 (n : Nat) : Nat := (n + 7) / 8 * 8

/-- `x & ~4095`: round down to a 4 KiB page boundary. -/
def pageFloor (n : Nat) : Nat := n / 4096 * 4096

/-- `(x + 4095) & ~4095`: round up to a 4 KiB page boundary. -/
def pageCeil (n : Nat) : Nat := (n + 4095) / 4096 * 4096

/-! ## Memory map entries (multiboot_mmap_entry_t, simpleboot.h:112) -/

/-- One Multiboot2 memory-map entry: `base_addr`, `length`, `type`.
`MULTIBOOT_MEMORY_AVAILABLE = 1`. -/
structure MmapEnt where
  base : Nat
  len : Nat
  ty : Nat
deriving DecidableEq, Repr, Inhabited

/-- `MULTIBOOT_MEMORY_AVAILABLE` (simpleboot.h:105). -/
def MEM_AVAILABLE : Nat := 1

/-! ## C7: top-of-RAM computation

`sort_map` (loader_x86.c:420-435) insertion-sorts the memory map by
`base_addr`; after inserting element `i` it reads `dst[i]` (the entry now
sitting at position `i`) and, when that entry is Available, raises `ram`
to its `base_addr + length`.  The loop starts at `i = 1`.
`efi_memmap` (loader_x86.c:927-934) instead scans every EFI descriptor
and raises `ram` for each `EfiConventionalMemory` one.
`fw_loadsetup` (loader_x86.c:1904) finally does `ram &= ~(2MiB-1)`. -/

/-- One inner-loop step group of `sort_map`: starting at position `j`,
swap `dst[j]` downward while `dst[j].base_addr < dst[j-1].base_addr`
(loader_x86.c:427-431).  `arr.getD` stands for the C array access. -/
def sortInner (arr : List MmapEnt) : Nat → List MmapEnt
  | 0 => arr
  | j + 1 =>
    if (arr.getD (j + 1) default).base < (arr.getD j default).base then
      sortInner ((arr.set (j + 1) (arr.getD j default)).set j (arr.getD (j + 1) default)) j
    else arr

/-- The outer loop of `sort_map` (loader_x86.c:426-434) from position `i`,
threading the global `ram`.  After each insertion it updates `ram` from
the entry at position `i`. -/
def sortMapGo (arr : List MmapEnt) (ram i : Nat) : Nat → List MmapEnt × Nat
  | 0 => (arr, ram)
  | fuel + 1 =>
    if i < arr.length then
      let arr2 := sortInner arr i
      let top := (arr2.getD i default).base + (arr2.getD i default).len
      let ram2 := if (arr2.getD i default).ty = MEM_AVAILABLE ∧ top > ram then top else ram
      sortMapGo arr2 ram2 (i + 1) fuel
    else (arr, ram)

/-- `sort_map(dst, num)` (loader_x86.c:420-435): returns the sorted array
and the updated global `ram`. -/
def sortMap (arr : List MmapEnt) (ram : Nat) : List MmapEnt × Nat :=
  sortMapGo arr ram 1 arr.length

/-- `EfiConventionalMemory = 7` (loader.h:358-376). -/
def EFI_CONVENTIONAL : Nat := 7

/-- One EFI memory descriptor as consumed by `efi_memmap`:
`Type`, `PhysicalStart`, `NumberOfPages`. -/
structure EfiDesc where
  ty : Nat
  phys : Nat
  pages : Nat
deriving DecidableEq, Repr

/-- The `dst == NULL` branch of `efi_memmap` (loader_x86.c:929-933):
for every descriptor, `top = PhysicalStart + (NumberOfPages << 12)`;
when the type is `EfiConventionalMemory` and `top > ram`, `ram = top`. -/
def efiRamScan (descs : List EfiDesc) (ram : Nat) : Nat :=
  match descs with
  | [] => ram
  | d :: rest =>
    let top := d.phys + d.pages * 4096
    efiRamScan rest (if d.ty = EFI_CONVENTIONAL ∧ top > ram then top else ram)

/-- `ram &= ~(2 * 1024 * 1024 - 1)` (loader_x86.c:1904). -/
def ramRound (n : Nat) : Nat := n / (2 * 1024 * 1024) * (2 * 1024 * 1024)

/-- What the specification says `ram` should be before rounding: the
largest `base + length` over Available entries (0 when there are none). -/
def specTopOfRam (arr : List MmapEnt) : Nat :=
  (arr.filter (fun e => e.ty = MEM_AVAILABLE)).foldr (fun e m => max (e.base + e.len) m) 0

/-- The same, for the EFI descriptor form. -/
def specTopOfRamEfi (descs : List EfiDesc) : Nat :=
  (descs.filter (fun d => d.ty = EFI_CONVENTIONAL)).foldr
    (fun d m => max (d.phys + d.pages * 4096) m) 0

/-! ## C3: the BIOS branch of `fw_loadseg` (loader_x86.c:2044-2090)

Only the success/failure decision is modelled; the claim is about when the
function fails with the memory-in-use error.  The `ST` (UEFI) branch and
the actual byte copying are outside this claim.  The higher-half branch
(`vaddr > ram`) delegates to `fw_map`; its outcome is taken as a
parameter `mapOk`. -/

/-- `TAGS_MAX = 30` (loader_x86.c:58); the reserved low-memory bound in
`fw_loadseg` is `0x20000 + (TAGS_MAX + 2) * 4096` (loader_x86.c:2064). -/
def loaderReserved : Nat := 0x20000 + (30 + 2) * 4096

/-- The memory-map scan of `fw_loadseg` (loader_x86.c:2073-2081): find the
first entry with `base_addr <= vaddr < base_addr + length`. -/
def findSlot (memmap : List MmapEnt) (vaddr : Nat) : Option MmapEnt :=
  memmap.find? (fun e => e.base ≤ vaddr ∧ vaddr < e.base + e.len)

/-- BIOS (`!ST`) branch of `fw_loadseg` (loader_x86.c:2044-2090), success
(`1`) or failure (`0`) as a `Bool`.  `mapOk` stands for the result of the
`fw_map` call in the higher-half branch (loader_x86.c:2067).  `size` is a
`uint32_t` (loader_x86.c:2048) assigned the page-rounded value computed
in 64-bit arithmetic (loader_x86.c:2052), hence the `% 2 ^ 32`
truncation: for `memsz + (vaddr & 4095) ≥ 0xFFFFF001` the stored `size`
wraps (down to 0 or 0x1000). -/
def fwLoadsegBios (memmap : List MmapEnt) (ram fileSize : Nat) (mapOk : Bool)
    (vaddr memsz : Nat) : Bool :=
  if memsz = 0 ∨ fileSize = 0 then true
  else
    let size := pageCeil (memsz + vaddr % 4096) % 2 ^ 32
    if vaddr < loaderReserved then false
    else if vaddr > ram then mapOk
    else match findSlot memmap vaddr with
      | some e => ¬(e.ty ≠ MEM_AVAILABLE ∨ e.base + e.len < pageFloor vaddr + size)
      | none => true

/-- Specification-side predicate for C3: no memory-map entry contains
`vaddr`. -/
def specNoSlot (mm : List MmapEnt) (vaddr : Nat) : Prop :=
  ∀ e ∈ mm, ¬(e.base ≤ vaddr ∧ vaddr < e.base + e.len)

/-- Specification-side predicate for C3: the first memory-map entry
containing `vaddr` is Available and covers the page-rounded target range
(`size` already page-rounded). -/
def specFirstSlotOk (mm : List MmapEnt) (vaddr size : Nat) : Prop :=
  ∃ pre e post, mm = pre ++ e :: post ∧ specNoSlot pre vaddr ∧
    (e.base ≤ vaddr ∧ vaddr < e.base + e.len) ∧
    e.ty = MEM_AVAILABLE ∧ pageFloor vaddr + size ≤ e.base + e.len

/-! ## C4: the Linux branch of `fw_loadkernel` (loader_x86.c:2119-2153) -/

/-- The fields of the Linux boot-protocol header (`linux_boot_t`,
loader.h:185-227) consulted by the Linux branch of `fw_loadkernel`. -/
structure LinuxHdr where
  setupSects : Nat
  bootFlag : Nat
  headerMagic : Nat  -- the 4 bytes at offset 0x202, "HdrS" = 0x53726448 LE
  version : Nat
  prefAddress : Nat
  initSize : Nat
deriving DecidableEq, Repr

/-- What the Linux branch produces: the zero-page header fields it sets,
the `fw_loadseg` arguments, and the kernel entry point. -/
structure LinLoad where
  typeOfLoader : Nat
  rootDev : Nat
  rootFlags : Nat
  vidMode : Nat
  segOffs : Nat
  segFilesz : Nat
  segVaddr : Nat
  segMemsz : Nat
  entry : Nat
deriving DecidableEq, Repr

/-- `"HdrS"` as a little-endian 32-bit value (loader.h:173, the
`memcmp(&hdr->header, HDRSMAG, 4)` at loader_x86.c:2119). -/
def HDRSMAG : Nat := 0x53726448

/-- The Linux detection and set-up of `fw_loadkernel`
(loader_x86.c:2119-2153).  Returns `none` when the image is not accepted
as a Linux kernel (wrong magic, version < 0x20c, or
`(pref_address + file_size) >> 32` nonzero, loader_x86.c:2120).
The cmdline copy and the UEFI zero-page allocation are not part of the
claim and are omitted. -/
def fwLoadkernelLinux (h : LinuxHdr) (fileSize : Nat) : Option LinLoad :=
  if h.bootFlag = 0xAA55 ∧ h.headerMagic = HDRSMAG then
    if h.version < 0x20c ∨ (h.prefAddress + fileSize) / 2 ^ 32 ≠ 0 then none
    else
      -- if(!hdr->setup_sects) hdr->setup_sects = 4;   (loader_x86.c:2140)
      let ss := if h.setupSects = 0 then 4 else h.setupSects
      some {
        typeOfLoader := 0xff       -- loader_x86.c:2144
        rootDev := 0x100           -- loader_x86.c:2143
        rootFlags := 1             -- loader_x86.c:2143
        vidMode := 0xffff          -- loader_x86.c:2143
        segOffs := (ss + 1) * 512  -- loader_x86.c:2152
        segFilesz := h.initSize
        segVaddr := h.prefAddress
        segMemsz := h.initSize
        entry := h.prefAddress + 512 }  -- loader_x86.c:2153
  else none

/-! ## C6: the FADT patch in `fw_fini` (loader_x86.c:2269-2274)

The FADT is modelled as its byte list; `hdr.size` is the list length.
Layout (`fadt_t` / `sdt_hdr_t`, loader.h:1011-1049): revision at byte 8,
checksum at byte 9, `dsdt` little-endian 32-bit at bytes 40..43,
`x_dsdt` little-endian 64-bit at bytes 140..147; `sizeof(fadt_t) = 148`. -/

/-- Read `n` bytes little-endian starting at `off`. -/
def readLE (f : List Nat) (off : Nat) : Nat → Nat
  | 0 => 0
  | n + 1 => f.getD off 0 + 256 * readLE f (off + 1) n

/-- Write `v` as `n` little-endian bytes starting at `off`. -/
def writeLE (f : List Nat) (off : Nat) (v : Nat) : Nat → List Nat
  | 0 => f
  | n + 1 => writeLE (f.set off (v % 256)) (off + 1) (v / 256) n

/-- Byte sum of a table (the checksum loop at loader_x86.c:2273). -/
def byteSum (f : List Nat) : Nat := f.foldr (· + ·) 0

/-- `fadt->dsdt = (uint32_t)dsdt_ptr` (loader_x86.c:2270): the 32-bit
field at byte offset 40. -/
def patchDsdt32 (f : List Nat) (dsdtPtr : Nat) : List Nat :=
  writeLE f 40 (dsdtPtr % 2 ^ 32) 4

/-- `if(fadt->hdr.rev >= 2 && fadt->hdr.size > sizeof(fadt_t))
fadt->x_dsdt = dsdt_ptr` (loader_x86.c:2271): the 64-bit field at byte
offset 140; revision is byte 8 and `sizeof(fadt_t) = 148`. -/
def patchDsdt64 (f : List Nat) (dsdtPtr : Nat) : List Nat :=
  if 2 ≤ f.getD 8 0 ∧ 148 < f.length then writeLE f 140 (dsdtPtr % 2 ^ 64) 8 else f

/-- `fadt->hdr.chksum = 0; for(...) s += byte; fadt->hdr.chksum = 0x100-s`
(loader_x86.c:2272-2274): the checksum is byte 9, `s` is a `uint8_t`. -/
def fixChecksum (f : List Nat) : List Nat :=
  (f.set 9 0).set 9 ((256 - byteSum (f.set 9 0) % 256) % 256)

/-- The whole FADT patch (loader_x86.c:2270-2274). -/
def patchFadt (f : List Nat) (dsdtPtr : Nat) : List Nat :=
  fixChecksum (patchDsdt64 (patchDsdt32 f dsdtPtr) dsdtPtr)

/-! ## C5: the MBI tag stream

The tag buffer starts with the 8-byte `multiboot_info_t` header
(`total_size`, `reserved`; simpleboot.h:70-73), so the first tag sits at
offset 8.  Every emission advances `tags_ptr` by `(size + 7) & ~7`.
The emission sequence is `fw_loadsetup` (loader_x86.c:1859-1905), then
`fw_loadmodules` (loader_x86.c:1978-1988), then `fw_fini`
(loader_x86.c:2230-2334), which ends with the type-0 terminator and sets
`total_size = tags_ptr - tags_buf`. -/

/-- A Multiboot2 tag as (type, declared byte size). -/
structure Tag where
  ty : Nat
  sz : Nat
deriving DecidableEq, Repr, Inhabited

/-- Which ACPI pointer tag the system-table scan emits: a 24-byte RSDP
(type 14, `s[15] < 2`, loader_x86.c:1519-1523), a 36-byte RSDP
(type 15, loader_x86.c:1525-1528), or the fake FOSSBIOS ACPI tag
(type 14, size `8 + sizeof(rsdp_t)`, loader_x86.c:1165-1182). -/
inductive AcpiSrc where
  | oldRsdp
  | newRsdp
  | fossFake
deriving DecidableEq, Repr

/-- Everything the tag-emitting code consults, one field per branch
condition in the source.  Sizes are in bytes as the code computes them. -/
structure MbiCfg where
  /-- backup mode flag `bkp` -/
  bkp : Bool
  /-- `cmdline` length up to CR/LF when a command line is present -/
  cmdline : Option Nat
  /-- SMBIOS anchor length byte `s[5]` when an anchor with good checksum
  was found (loader_x86.c:1505-1515 / 1065-1073) -/
  smbios : Option Nat
  /-- ACPI RSDP tag variant when found -/
  acpi : Option AcpiSrc
  /-- number of memory-map entries produced on the BIOS path
  (loader_x86.c:1892); the tag is kept only when positive -/
  mmapN : Nat
  /-- per kept module, the length `e - a` of its command string
  (loader_x86.c:1981) -/
  modules : List Nat
  /-- a framebuffer is active at `fw_fini` (loader_x86.c:2230) -/
  fb : Bool
  /-- EDID block length `i` when one was obtained with `i > 0` and a
  nonzero timing descriptor (loader_x86.c:2243) -/
  edid : Option Nat
  /-- SMP tag requested (loader_x86.c:2289) -/
  smp : Bool
  /-- UEFI (`ST` nonnull) -/
  st : Bool
  /-- number of memory-map entries produced at `fw_fini` on UEFI
  (loader_x86.c:2315) -/
  efiMmapN : Nat

/-- Tags from `bios_systables` (loader_x86.c:1499-1534) or
`fb_systables` (loader_x86.c:1160-1183) or `efi_systables`
(loader_x86.c:1056-1094).  `sizeof(multiboot_tag_smbios_t) = 16`,
`sizeof(multiboot_tag_old_acpi_t) = sizeof(multiboot_tag_new_acpi_t) = 8`,
`sizeof(rsdp_t) = 20` (loader.h:1003-1009).  The scan emits the SMBIOS
and RSDP tags in the order the anchors appear in memory; the order is
irrelevant to the stated properties and is fixed here. -/
def sysTags (smbios : Option Nat) (acpi : Option AcpiSrc) : List Tag :=
  (match smbios with
    | some len => [⟨13, 16 + len⟩]
    | none => []) ++
  (match acpi with
    | some .oldRsdp => [⟨14, 8 + 24⟩]
    | some .newRsdp => [⟨15, 8 + 36⟩]
    | some .fossFake => [⟨14, 8 + 20⟩]
    | none => [])

/-- Tags emitted by `fw_loadsetup` (loader_x86.c:1860-1905): the loader
name tag (size 28 in backup mode, 19 otherwise, loader_x86.c:1867), the
command-line tag (size `9 + (c - cmdline)`, loader_x86.c:1876), and on
the BIOS path the system-table tags followed by the memory-map tag
(size `16 + 24 * n`, kept only when `n > 0`, loader_x86.c:1888-1897). -/
def loadsetupTags (cfg : MbiCfg) : List Tag :=
  [⟨2, if cfg.bkp then 28 else 19⟩] ++
  (match cfg.cmdline with
    | some len => [⟨1, 9 + len⟩]
    | none => []) ++
  (if cfg.st then sysTags cfg.smbios cfg.acpi
   else sysTags cfg.smbios cfg.acpi ++
     (if 0 < cfg.mmapN then [⟨6, 16 + 24 * cfg.mmapN⟩] else []))

/-- Module tags from `fw_loadmodules` (loader_x86.c:1978-1988):
`sizeof(multiboot_tag_module_t) = 16`, size `16 + (e - a) + 1`. -/
def moduleTags (strLens : List Nat) : List Tag :=
  strLens.map (fun len => ⟨3, 16 + len + 1⟩)

/-- Tags emitted by `fw_fini` before the terminator
(loader_x86.c:2230-2328): framebuffer tag (size
`sizeof(multiboot_tag_framebuffer_t) = 40`), EDID tag (size `i + 8`,
advanced by `(i + 15) & ~7 = align8(i + 8)`), SMP tag (size 20),
the unconditional partition-UUID tag (size 24), and on UEFI the final
memory map, EFI64 and EFI64-IH tags (sizes `16 + 24*n`, 16, 16). -/
def finiTags (cfg : MbiCfg) : List Tag :=
  (if cfg.fb then [⟨8, 40⟩] else []) ++
  (match cfg.edid with
    | some i => [⟨256, i + 8⟩]
    | none => []) ++
  (if cfg.smp then [⟨257, 20⟩] else []) ++
  [⟨258, 24⟩] ++
  (if cfg.st then
    (if 0 < cfg.efiMmapN then [⟨6, 16 + 24 * cfg.efiMmapN⟩] else []) ++
    [⟨12, 16⟩, ⟨20, 16⟩]
   else [])

/-- The full tag stream of one boot, terminator included
(loader_x86.c:2331-2333). -/
def mbiTags (cfg : MbiCfg) : List Tag :=
  loadsetupTags cfg ++ moduleTags cfg.modules ++ finiTags cfg ++ [⟨0, 8⟩]

/-- Byte offsets of the tags when the stream is laid out from `start`,
each tag advancing the cursor by `align8 size`. -/
def tagOffsets (start : Nat) : List Tag → List Nat
  | [] => []
  | t :: ts => start :: tagOffsets (start + align8 t.sz) ts

/-- The cursor position after laying out the whole stream from `start`. -/
def endOffset (start : Nat) : List Tag → Nat
  | [] => start
  | t :: ts => endOffset (start + align8 t.sz) ts

/-- `total_size` as written at loader_x86.c:2334: the cursor position
after the terminator, counted from the buffer start (the 8-byte MBI
header precedes the first tag). -/
def totalSize (cfg : MbiCfg) : Nat := endOffset 8 (mbiTags cfg)

/-! ## C1: `fw_map` (loader_x86.c:2011-2039)

The 4-level page table lives in raw memory.  Memory is modelled as a map
from a table's physical base address to its 512 entries; `bios_alloc`
(loader_x86.c:1323-1329) is the bump allocator returning the zeroed page
at `file_buf`.  The pending 4 KiB entries form a linked list threaded
through the entries themselves (each holds the address of the previous
pending entry); the model keeps that list as explicit
(table base, index) pairs, in the same order. -/

/-- Machine state for the page-table walk: the tables and the bump
cursor `file_buf`. -/
structure PtMem where
  tab : Nat → Nat → Nat
  fileBuf : Nat

/-- `bios_alloc()` (loader_x86.c:1323-1329): hand out the zeroed page at
`file_buf` and advance the cursor. -/
def biosAlloc (m : PtMem) : Nat × PtMem :=
  (m.fileBuf, ⟨Function.update m.tab m.fileBuf (fun _ => 0), m.fileBuf + 4096⟩)

/-- Fetch an intermediate-level entry; when it is zero, or (at the 2 MiB
level, `wantSplit`) carries the large-page bit 0x80, allocate a fresh
table and store `addr | 3` (loader_x86.c:2022-2028).  Returns the table
base `*ptr & ~4095` to descend into, or 0 on allocation failure. -/
def ptDescend (m : PtMem) (base idx : Nat) (wantSplit : Bool) : Nat × PtMem :=
  let e := m.tab base idx
  if e = 0 ∨ (wantSplit ∧ e / 128 % 2 = 1) then
    let (page, m2) := biosAlloc m
    -- *ptr = alloc(); if(!*ptr) return 0; else *ptr |= 3;
    let m3 : PtMem :=
      ⟨Function.update m2.tab base
        (Function.update (m2.tab base) idx (if page = 0 then 0 else page + 3)), m2.fileBuf⟩
    if page = 0 then (0, m3) else (page, m3)
  else (pageFloor e, m)

/-- One iteration of the walk loop (loader_x86.c:2019-2033) for the page
containing `virt`: descend the 512G, 1G and 2M levels, then at the 4K
level append the entry to the pending list when it is still zero —
an already-mapped page is left untouched and the loop continues. -/
def fwMapStep (m : PtMem) (pt virt : Nat) (next : List (Nat × Nat)) :
    Bool × PtMem × List (Nat × Nat) :=
  let (t3, m) := ptDescend m pt (virt / 2 ^ 39 % 512) false
  if t3 = 0 then (false, m, next) else
  let (t2, m) := ptDescend m t3 (virt / 2 ^ 30 % 512) false
  if t2 = 0 then (false, m, next) else
  let (t1, m) := ptDescend m t2 (virt / 2 ^ 21 % 512) true
  if t1 = 0 then (false, m, next) else
  let idx := virt / 2 ^ 12 % 512
  if m.tab t1 idx = 0 then
    -- *ptr = (uint64_t)next; next = ptr;   (loader_x86.c:2032)
    let prev := match next with
      | [] => 0
      | (b, i) :: _ => b + 8 * i
    (true, ⟨Function.update m.tab t1 (Function.update (m.tab t1) idx prev), m.fileBuf⟩,
     (t1, idx) :: next)
  else (true, m, next)

/-- The walk loop over all pages of `[virt, virt + size)`, `n` pages
remaining.  The `false` outcome is the `return 0` on allocation failure. -/
def fwMapWalk (m : PtMem) (pt virt : Nat) (next : List (Nat × Nat)) :
    Nat → Bool × PtMem × List (Nat × Nat)
  | 0 => (true, m, next)
  | n + 1 =>
    match fwMapStep m pt virt next with
    | (false, m2, next2) => (false, m2, next2)
    | (true, m2, next2) => fwMapWalk m2 pt (virt + 4096) next2 n

/-- The resolution pass (loader_x86.c:2035-2037): walk the pending list
from its head, storing `end | 3` and stepping `end` down one page. -/
def fwMapResolve (m : PtMem) (e : Nat) : List (Nat × Nat) → PtMem
  | [] => m
  | (b, i) :: rest =>
    fwMapResolve ⟨Function.update m.tab b (Function.update (m.tab b) i (e + 3)), m.fileBuf⟩
      (e - 4096) rest

/-- `fw_map(phys, virt, size)` (loader_x86.c:2011-2039) on the BIOS path
(`ST = NULL`, allocations through `bios_alloc`).  Returns the C result
(0 or 1) and the new memory state. -/
def fwMap (pt : Nat) (m : PtMem) (phys virt size : Nat) : Nat × PtMem :=
  if pt = 0 ∨ (virt / 2 ^ 48 ≠ 0x0000 ∧ virt / 2 ^ 48 ≠ 0xffff) then (0, m)
  else
    let orig := m.fileBuf
    let endv := virt + size
    let va := pageFloor virt
    let pa := pageFloor phys
    let npages := (endv - va + 4095) / 4096
    match fwMapWalk m pt va [] npages with
    | (false, m2, _) => (0, m2)
    | (true, m2, next) =>
      let e := pageFloor ((if pa = orig then m2.fileBuf else pa) + size - 1)
      (1, fwMapResolve m2 e next)

/-- A concrete two-call scenario for the overlap claim: empty tables at
`0x100000`, bump cursor at `0x101000`; both calls map the single virtual
page at `0x1000`. -/
def mapDemo0 : PtMem := ⟨fun _ _ => 0, 0x101000⟩

/-- First call: `fw_map(0x200000, 0x1000, 0x1000)`. -/
def mapDemo1 : Nat × PtMem := fwMap 0x100000 mapDemo0 0x200000 0x1000 0x1000

/-- Second call on the same virtual page: `fw_map(0x300000, 0x1000, 0x1000)`. -/
def mapDemo2 : Nat × PtMem := fwMap 0x100000 mapDemo1.2 0x300000 0x1000 0x1000

/-! ## C2 / C10: the configuration parser

`fw_loadconfig` (loader_x86.c:1748-1838) scans the config text line by
line.  For each line: leading `\r \n space \t` are skipped; `a` is the
first argument (first token skipped, then spaces); `e` is the line end.
`l = !memcmp(s, "backup", 6)`; when `bkp ^ l` the line is skipped, and
when `bkp & l` the cursor advances by exactly 6 bytes before directive
matching (loader_x86.c:1783-1784).  Positions are modelled as the suffix
of the text at the cursor plus the remaining distance to `e`
(`memcmp`/`getint` read the flat buffer and may look past `e`, exactly
as the C does). -/

/-- The global state the parser writes.  `kernel`, `cmdline` and
`splash` record the `a..e` slice the corresponding pointer refers to
(for `splash`, the path handed to `fw_open`). -/
structure CfgState where
  kernel : Option (List Char)
  cmdline : Option (List Char)
  smp : Bool
  verbose : Nat
  fbw : Nat
  fbh : Nat
  fbbpp : Nat
  fbbg : Nat
  splash : Option (List Char)
  menu : Nat
deriving DecidableEq, Repr

/-- `getint` (loader_x86.c:125-129): decimal digits into a `uint32_t`
(`*ret = *ret * 10 + digit`, wrapping mod `2^32`), returning the rest. -/
def getintGo : List Char → Nat → Nat × List Char
  | [], acc => (acc, [])
  | c :: rest, acc =>
    if '0' ≤ c ∧ c ≤ '9' then getintGo rest ((acc * 10 + (c.toNat - 48)) % 2 ^ 32)
    else (acc, c :: rest)

/-- `getint(ptr, &ret)` with `*ret = 0` initially. -/
def getint (s : List Char) : Nat × List Char := getintGo s 0

/-- One hex digit, or `none` (loader_x86.c:114-116). -/
def hexDigit (c : Char) : Option Nat :=
  if '0' ≤ c ∧ c ≤ '9' then some (c.toNat - 48)
  else if 'a' ≤ c ∧ c ≤ 'f' then some (c.toNat - 87)
  else if 'A' ≤ c ∧ c ≤ 'F' then some (c.toNat - 55)
  else none

/-- `gethex` (loader_x86.c:109-120): at most 2 hex digits into a
`uint32_t` (`*ret <<= 4; *ret += d`, wrapping mod `2^32`). -/
def gethexGo : Nat → List Char → Nat → Nat × List Char
  | 0, s, acc => (acc, s)
  | _ + 1, [], acc => (acc, [])
  | n + 1, c :: rest, acc =>
    match hexDigit c with
    | some d => gethexGo n rest ((acc * 16 + d) % 2 ^ 32)
    | none => (acc, c :: rest)

/-- `gethex(ptr, &ret)` with `*ret = 0` initially. -/
def gethex (s : List Char) : Nat × List Char := gethexGo 2 s 0

/-- `while(a < e && *a == ' ') a++` on (suffix, distance-to-e). -/
def skipSpaces : List Char → Nat → List Char × Nat
  | [], left => ([], left)
  | c :: rest, left =>
    if left ≠ 0 ∧ c = ' ' then skipSpaces rest (left - 1) else (c :: rest, left)

/-- The path-token scan of the `kernel` directive (loader_x86.c:1827-1828):
advance while `a < e` and the character is none of NUL, space, CR, LF,
skipping an extra byte after a `\`-escaped space. -/
def skipPath (s : List Char) (left : Nat) : List Char × Nat :=
  match s, left with
  | [], l => ([], l)
  | c :: rest, l =>
    if l = 0 then (c :: rest, 0)
    else if c = ' ' ∨ c = '\r' ∨ c = '\n' then (c :: rest, l)
    else if c = '\\' ∧ rest.head? = some ' ' then skipPath rest.tail (l - 2)
    else skipPath rest (l - 1)
termination_by s.length
decreasing_by
  · cases rest <;> simp <;> omega
  · simp

/-- The three integers parsed by the `framebuffer <w> <h> <bpp>` handler
(loader_x86.c:1794-1796): `getint`, skip spaces while `a < e`, `getint`,
skip spaces, `getint`. -/
def fbParse (aSuf : List Char) (aLeft : Nat) : Nat × Nat × Nat :=
  let (w, r1) := getint aSuf
  let (r1s, left1) := skipSpaces r1 (aLeft - (aSuf.length - r1.length))
  let (h, r2) := getint r1s
  let (r2s, _) := skipSpaces r2 (left1 - (r1s.length - r2.length))
  let (b, _) := getint r2s
  (w, h, b)

/-- The `framebuffer <w> <h> <bpp>` handler (loader_x86.c:1793-1799):
when any parsed value is out of range, all three are reset to the current
video mode `vidmode.framebuffer_{width,height,bpp}`; no error is
raised. -/
def fbDirective (vidW vidH vidB : Nat) (st : CfgState) (aSuf : List Char) (aLeft : Nat) :
    CfgState :=
  let (w, h, b) := fbParse aSuf aLeft
  if w < 320 ∨ w > 65536 ∨ h < 200 ∨ h > 65536 ∨ b < 15 ∨ b > 32 then
    { st with fbw := vidW, fbh := vidH, fbbpp := vidB }
  else
    { st with fbw := w, fbh := h, fbbpp := b }

/-- The `bootsplash [#RRGGBB] <path>` handler (loader_x86.c:1801-1823).
`fbColor` stands for the `FB_COLOR(r,g,b)` computation, which depends on
the active video mode (loader.h:31-36).  The logo load itself is
recorded as the `a..e` slice handed to `fw_open`. -/
def splashDirective (fbColor : Nat → Nat → Nat → Nat) (st : CfgState)
    (aSuf : List Char) (aLeft : Nat) : CfgState :=
  match aSuf with
  | '#' :: rA =>
    let (r, s1) := gethex rA
    let (g, s2) := gethex s1
    let (b, s3) := gethex s2
    let (s4, left4) := skipSpaces s3 (aLeft - (aSuf.length - s3.length))
    let st2 := { st with fbbg := fbColor r g b }
    if left4 ≠ 0 then { st2 with splash := some (s4.take left4) } else st2
  | _ => if aLeft ≠ 0 then { st with splash := some (aSuf.take aLeft) } else st

/-- The `kernel <path> [cmdline]` handler (loader_x86.c:1825-1831). -/
def kernelDirective (st : CfgState) (aSuf : List Char) (aLeft : Nat) : CfgState :=
  let st2 := { st with kernel := some (aSuf.take aLeft) }
  let (s2, left2) := skipPath aSuf aLeft
  let (s3, _) := skipSpaces s2 left2
  match s3 with
  | [] => st2
  | c :: _ =>
    if c ≠ '\r' ∧ c ≠ '\n' then
      { st2 with cmdline := some (s3.takeWhile (fun c2 => c2 ≠ '\r' ∧ c2 ≠ '\n')) }
    else st2

/-- Is one of `\r \n space \t` (the line-start skip, loader_x86.c:1776). -/
def isWsp (c : Char) : Bool := c = '\r' ∨ c = '\n' ∨ c = ' ' ∨ c = '\t'

/-- Not a line terminator. -/
def notEol (c : Char) : Bool := c ≠ '\r' ∧ c ≠ '\n'

/-- The scan loop of `fw_loadconfig` (loader_x86.c:1774-1834). -/
def loadConfigGo (vidW vidH vidB : Nat) (fbColor : Nat → Nat → Nat → Nat) (bkp : Bool) :
    List Char → CfgState → Nat → CfgState
  | _, st, 0 => st
  | s, st, fuel + 1 =>
    let s1 := s.dropWhile isWsp
    if s1 = [] then st
    else
      let line := s1.takeWhile notEol
      let rest := s1.drop line.length
      let tokLen := (line.takeWhile (· ≠ ' ')).length
      let aIdx := tokLen + ((line.drop tokLen).takeWhile (· = ' ')).length
      let aSuf := s1.drop aIdx
      let aLeft := line.length - aIdx
      let l : Bool := decide (s1.take 6 = "backup".toList)
      if bkp ≠ l then loadConfigGo vidW vidH vidB fbColor bkp rest st fuel
      else
        let sEff := if bkp then s1.drop 6 else s1
        let st1 := if sEff.take 9 = "multicore".toList then { st with smp := true } else st
        if aLeft = 0 then loadConfigGo vidW vidH vidB fbColor bkp rest st1 fuel
        else if sEff.take 9 = "menuentry".toList then
          if st1.menu + 1 > 1 then { st1 with menu := st1.menu + 1 }
          else loadConfigGo vidW vidH vidB fbColor bkp rest { st1 with menu := st1.menu + 1 } fuel
        else if sEff.take 7 = "verbose".toList then
          loadConfigGo vidW vidH vidB fbColor bkp rest
            { st1 with verbose := (getint aSuf).1 } fuel
        else if sEff.take 11 = "framebuffer".toList then
          loadConfigGo vidW vidH vidB fbColor bkp rest
            (fbDirective vidW vidH vidB st1 aSuf aLeft) fuel
        else if sEff.take 10 = "bootsplash".toList then
          loadConfigGo vidW vidH vidB fbColor bkp rest
            (splashDirective fbColor st1 aSuf aLeft) fuel
        else if aLeft ≠ 0 ∧ sEff.take 6 = "kernel".toList then
          loadConfigGo vidW vidH vidB fbColor bkp rest
            (kernelDirective st1 aSuf aLeft) fuel
        else loadConfigGo vidW vidH vidB fbColor bkp rest st1 fuel

/-- `fw_loadconfig` for a present config file: state initialisation
(loader_x86.c:1773), the scan loop, then the defaults: a missing kernel
path becomes `defkernel = "kernel"` (loader_x86.c:1836, loader_x86.c:71)
and `definitrd[63] == 1` forces `smp` outside backup mode
(loader_x86.c:1837). -/
def loadConfig (vidW vidH vidB : Nat) (fbColor : Nat → Nat → Nat → Nat)
    (definitrd63 : Nat) (bkp : Bool) (txt : List Char) : CfgState :=
  let st0 : CfgState :=
    { kernel := none, cmdline := none, smp := false, verbose := 0,
      fbw := vidW, fbh := vidH, fbbpp := vidB, fbbg := 0, splash := none, menu := 0 }
  let st := loadConfigGo vidW vidH vidB fbColor bkp txt st0 (txt.length + 1)
  let st2 := if st.kernel = none then { st with kernel := some "kernel".toList } else st
  if ¬bkp ∧ definitrd63 = 1 then { st2 with smp := true } else st2

/-- The scan loop of `fw_loadmodules` (loader_x86.c:1920-2002): collects,
in order, the `a..e` argument slice of every `module` directive whose
line passes the backup filter (`a >= e || bkp ^ l` skips,
loader_x86.c:1930-1931).  Each collected slice is what `fw_open` is
called with; the module loading itself and the no-module default-initrd
fallback (loader_x86.c:2003-2005) are not part of the claims. -/
def loadModulesGo (bkp : Bool) : List Char → List (List Char) → Nat → List (List Char)
  | _, acc, 0 => acc
  | s, acc, fuel + 1 =>
    let s1 := s.dropWhile isWsp
    if s1 = [] then acc
    else
      let line := s1.takeWhile notEol
      let rest := s1.drop line.length
      let tokLen := (line.takeWhile (· ≠ ' ')).length
      let aIdx := tokLen + ((line.drop tokLen).takeWhile (· = ' ')).length
      let aSuf := s1.drop aIdx
      let aLeft := line.length - aIdx
      let l : Bool := decide (s1.take 6 = "backup".toList)
      if aLeft = 0 ∨ bkp ≠ l then loadModulesGo bkp rest acc fuel
      else
        let sEff := if bkp then s1.drop 6 else s1
        if sEff.take 6 = "module".toList then
          loadModulesGo bkp rest (acc ++ [aSuf.take aLeft]) fuel
        else loadModulesGo bkp rest acc fuel

/-- `fw_loadmodules` scan over the whole config text. -/
def loadModules (bkp : Bool) (txt : List Char) : List (List Char) :=
  loadModulesGo bkp txt [] (txt.length + 1)

/-! ## C8 / C9: the FAT32 reader (BIOS path) and `efi_read`

The boot disk is a pure function from sector number and byte index to the
byte stored there (`fw_loadsec`, reads only).  The BPB fields and derived
`fat_lba` / `data_lba` follow `bios_vbr` (loader_x86.c:1603-1614). -/

/-- The BPB fields used by the reader (`esp_bpb_t`): sectors-per-cluster
`spc`, reserved sectors `rsc`, number of FATs `nf`, sectors per FAT
`spf32`, root cluster `rc`.  `bps = 512` is validated and hard-wired. -/
structure Bpb where
  spc : Nat
  rsc : Nat
  nf : Nat
  spf32 : Nat
  rc : Nat
deriving DecidableEq, Repr

/-- A mounted volume: the sector-addressed disk and the BPB, with the
boot partition's start LBA. -/
structure Vol where
  disk : Nat → Nat → Nat
  bpb : Bpb
  partLba : Nat

/-- One disk byte (bytes are 8-bit). -/
def db (v : Vol) (lba i : Nat) : Nat := v.disk lba i % 256

/-- `fat_lba = bpb->rsc + boot_partition_lba` (loader_x86.c:1609). -/
def fatLba (v : Vol) : Nat := v.bpb.rsc + v.partLba

/-- `data_lba = bpb->spf32 * bpb->nf + bpb->rsc - 2 * bpb->spc +
boot_partition_lba` (loader_x86.c:1610); the C computes in `uint64_t`,
valid volumes have `2 * spc` no larger than the rest. -/
def dataLba (v : Vol) : Nat :=
  v.bpb.spf32 * v.bpb.nf + v.bpb.rsc + v.partLba - 2 * v.bpb.spc

/-- A 32-bit little-endian load from a sector. -/
def leRead4 (v : Vol) (lba off : Nat) : Nat :=
  db v lba off + 256 * db v lba (off + 1) + 65536 * db v lba (off + 2) +
    16777216 * db v lba (off + 3)

/-- FAT entry `n` read straight from the FAT area: 4 bytes little-endian
at byte offset `4 * n` from `fat_lba` (128 entries per sector). -/
def fatEntry (v : Vol) (n : Nat) : Nat := leRead4 v (fatLba v + n / 128) (n % 128 * 4)

/-- The 1024-entry FAT cache `fat[1024]` with its window base
`fat_cache` (loader_x86.c:413). -/
structure FatCache where
  base : Nat
  entries : Nat → Nat

/-- The cache reload of `bios_nextclu` (loader_x86.c:1340-1341):
`fat_cache = clu & ~1023`, then 8 sectors from
`fat_lba + (fat_cache >> 7)`; entry `j` of the window therefore comes
from sector `fat_lba + fat_cache/128 + j/128` at byte `4 * (j % 128)`. -/
def loadFatWindow (v : Vol) (clu : Nat) : FatCache :=
  let base := clu / 1024 * 1024
  ⟨base, fun j => leRead4 v (fatLba v + base / 128 + j / 128) (j % 128 * 4)⟩

/-- The cache state after `bios_vbr` preloads the first 8 FAT sectors and
sets `fat_cache = 0` (loader_x86.c:1611-1613). -/
def mountCache (v : Vol) : FatCache :=
  ⟨0, fun j => leRead4 v (fatLba v + j / 128) (j % 128 * 4)⟩

/-- `bios_nextclu(clu)` (loader_x86.c:1334-1345) on the cache state
(`ST = NULL`).  Cluster numbers `< 2` or `>= 0x0FFFFFF8` terminate. -/
def biosNextclu (v : Vol) (c : FatCache) (clu : Nat) : Nat × FatCache :=
  if clu < 2 ∨ 0x0FFFFFF8 ≤ clu then (0, c)
  else
    let c2 := if clu < c.base ∨ c.base + 1023 < clu then loadFatWindow v clu else c
    let r := c2.entries (clu - c2.base)
    (if r < 2 ∨ 0x0FFFFFF8 ≤ r then 0 else r, c2)

/-- The cache-free meaning of `bios_nextclu`. -/
def nextcluPure (v : Vol) (clu : Nat) : Nat :=
  if clu < 2 ∨ 0x0FFFFFF8 ≤ clu then 0
  else
    let r := fatEntry v clu
    if r < 2 ∨ 0x0FFFFFF8 ≤ r then 0 else r

/-- The cache window holds exactly the FAT entries of its 1024-aligned
base window. -/
def CacheOK (v : Vol) (c : FatCache) : Prop :=
  c.base % 1024 = 0 ∧ ∀ j < 1024, c.entries j = fatEntry v (c.base + j)

/-- The 512 bytes of a sector. -/
def sectorBytes (v : Vol) (lba : Nat) : List Nat := (List.range 512).map (db v lba)

/-- The cluster chain from `clu`, at most `k` links, ended by 0. -/
def chainList (v : Vol) : Nat → Nat → List Nat
  | 0, _ => []
  | k + 1, clu => if clu = 0 then [] else clu :: chainList v k (nextcluPure v clu)

/-- The sectors of one cluster: `clu * spc + data_lba` onward
(loader_x86.c:1470). -/
def clusterSectors (v : Vol) (clu : Nat) : List Nat :=
  (List.range v.bpb.spc).map (fun s => clu * v.bpb.spc + dataLba v + s)

/-- The byte sequence stored in the cluster chain of a file: the bytes of
the chain's sectors in order. -/
def chainBytes (v : Vol) (k clu : Nat) : List Nat :=
  ((chainList v k clu).flatMap (clusterSectors v)).flatMap (sectorBytes v)

/-- The sectors still ahead of the read loop in state
(`secleft`, `lba`, `clu`): first `lba+1 .. lba+secleft`, then, cluster by
cluster, the sectors of the chain from `clu` (at most `k` more
clusters). -/
def aheadSectors (v : Vol) : Nat → Nat → Nat → Nat → List Nat
  | k, secleft + 1, lba, clu => (lba + 1) :: aheadSectors v k secleft (lba + 1) clu
  | 0, 0, _, _ => []
  | k + 1, 0, _, clu =>
    if clu = 0 then []
    else
      (clu * v.bpb.spc + dataLba v) ::
        aheadSectors v k (v.bpb.spc - 1) (clu * v.bpb.spc + dataLba v) (nextcluPure v clu)

/-- The transfer loop of `bios_read` (loader_x86.c:1465-1483), with the
user-interruption flag `rq` never set (no key press; the splash progress
bar has no effect on the data).  Returns the final `rem`, the bytes
written to `buf`, and the cache state.  `fuel` dominates the iteration
count (each iteration moves at least one byte while `rem > 0`). -/
def readLoop (v : Vol) : Nat → FatCache → Nat → Nat → Nat → Nat → Nat → Nat →
    List Nat → (Nat × List Nat) × FatCache
  | 0, c, rem, _, _, _, _, _, acc => ((rem, acc), c)
  | fuel + 1, c, rem, clu, secleft, lba, os, rs, acc =>
    if rem = 0 then ((0, acc), c)
    else if secleft ≠ 0 then
      let rs2 := if rs > rem then rem else rs
      let chunk := ((sectorBytes v (lba + 1)).drop os).take rs2
      readLoop v fuel c (rem - rs2) clu (secleft - 1) (lba + 1) 0 512 (acc ++ chunk)
    else if clu = 0 then ((rem, acc), c)
    else
      let lba2 := clu * v.bpb.spc + dataLba v
      let (cluN, c2) := biosNextclu v c clu
      let rs2 := if rs > rem then rem else rs
      let chunk := ((sectorBytes v lba2).drop os).take rs2
      readLoop v fuel c2 (rem - rs2) cluN (v.bpb.spc - 1) lba2 0 512 (acc ++ chunk)

/-- The cluster-skipping seek of `bios_read`
(`while(nc-- && clu) clu = bios_nextclu(clu)`, loader_x86.c:1461). -/
def hopClusters (v : Vol) : FatCache → Nat → Nat → Nat × FatCache
  | c, clu, 0 => (clu, c)
  | c, clu, n + 1 =>
    if clu = 0 then (clu, c)
    else
      let (clu2, c2) := biosNextclu v c clu
      hopClusters v c2 clu2 n

/-- `bios_read(offs, size, buf)` (loader_x86.c:1447-1486): the guard, the
`offs + size > file_size` truncation, the seek prelude, and the transfer
loop.  Returns `(bytes transferred, bytes)` plus the cache state. -/
def biosRead (v : Vol) (c : FatCache) (fileClu fileSize : Nat) (bufPresent : Bool)
    (offs size : Nat) : (Nat × List Nat) × FatCache :=
  if fileClu < 2 ∨ fileSize ≤ offs ∨ size = 0 ∨ ¬bufPresent then ((0, []), c)
  else
    let size2 := if fileSize < offs + size then fileSize - offs else size
    if offs ≠ 0 then
      let nc := offs / (v.bpb.spc * 512)
      let o := offs % (v.bpb.spc * 512)
      let ns := o / 512
      let os := o % 512
      let rs := 512 - os
      let (clu, c2) := if nc ≠ 0 then hopClusters v c fileClu nc else (fileClu, c)
      if nc ≠ 0 ∧ clu = 0 then ((0, []), c2)
      else
        let secleft := v.bpb.spc - ns - 1
        let lba := clu * v.bpb.spc + ns - 1 + dataLba v
        let ((rem, bytes), c3) := readLoop v size2 c2 size2 clu secleft lba os rs []
        ((size2 - rem, bytes), c3)
    else
      let ((rem, bytes), c3) := readLoop v size2 c size2 fileClu 0 0 0 512 []
      ((size2 - rem, bytes), c3)

/-- ASCII lowercase fold of the case-insensitive name compare
(loader_x86.c:1417-1418). -/
def lowerU (x : Nat) : Nat := if 65 ≤ x ∧ x ≤ 90 then x + 32 else x

/-- The name-match loop of `bios_open` (loader_x86.c:1416-1420): count
matching positions while `lfn[i]` is nonzero and `s[i]` is neither NUL
nor `/`; positions past the end of the path read the NUL terminator of
`wcname`. -/
def matchLenGo (lfn : Nat → Nat) (s : List Nat) (i : Nat) : Nat → Nat
  | 0 => i
  | fuel + 1 =>
    if lfn i ≠ 0 ∧ s.getD i 0 ≠ 0 ∧ s.getD i 0 ≠ 47 then
      if lowerU (lfn i) = lowerU (s.getD i 0) then matchLenGo lfn s (i + 1) fuel else i
    else i

/-- The match loop from position 0; 262 bounds the `lfn[261]` buffer. -/
def matchLen (lfn : Nat → Nat) (s : List Nat) : Nat := matchLenGo lfn s 0 262

/-- Build the long name from an 8.3 entry (loader_x86.c:1403-1412):
8 name bytes with trailing spaces trimmed, then up to 3 extension bytes
after a dot.  `b` is the directory-entry byte accessor. -/
def name83 (b : Nat → Nat) : List Nat :=
  let stem := ((List.range 8).map b).reverse.dropWhile (fun x => x = 32) |>.reverse
  if b 8 ≠ 32 then
    stem ++ [46, b 8] ++ (if b 9 ≠ 32 then [b 9] ++ (if b 10 ≠ 32 then [b 10] else []) else [])
  else stem

/-- Store a list of UCS-2 units into the `lfn` buffer starting at 0,
NUL-terminating it (positions past the terminator keep their old
contents, which the terminator makes unreachable). -/
def lfnStore (old : Nat → Nat) (name : List Nat) : Nat → Nat := fun j =>
  if h : j < name.length then name.get ⟨j, h⟩ else if j = name.length then 0 else old j

/-- Store the 13 UCS-2 units of one LFN slot at (possibly negative,
then discarded) position `p` (loader_x86.c:1389-1394). -/
def lfnSlotStore (old : Nat → Nat) (p : Int) (b : Nat → Nat) : Nat → Nat := fun j =>
  let vals : List Nat :=
    ((List.range 5).map (fun i => b (i * 2 + 2) % 256 * 256 + b (i * 2 + 1))) ++
    ((List.range 6).map (fun i => b (i * 2 + 0xF) % 256 * 256 + b (i * 2 + 0xE))) ++
    [b 0x1D % 256 * 256 + b 0x1C, b 0x1F % 256 * 256 + b 0x1E]
  if p ≤ (j : Int) ∧ (j : Int) < p + 13 then vals.getD ((j : Int) - p).toNat 0 else old j

/-- One step outcome of the `bios_open` scan. -/
inductive OpenStep where
  | fail
  | found (clu size : Nat)
  | cont (s : List Nat) (clu secleft lba dirOff : Nat) (lfn : Nat → Nat)
      (n : Nat) (m : Bool) (uPos : Int) (c : FatCache)

/-- The directory scan loop of `bios_open` (loader_x86.c:1361-1440).
State: remaining path `s` (UCS-2 units of `wcname`), current directory
cluster walk (`clu`, `secleft`, `lba`), byte offset `dirOff` of the next
entry in the current sector (512 forces a sector fetch), the `lfn`
reconstruction buffer with its slot count `n`, the "LFN complete" flag
`m` and the slot write position `uPos` (`u - lfn`), and the FAT cache. -/
def biosOpenGo (v : Vol) : List Nat → FatCache → Nat → Nat → Nat → Nat →
    (Nat → Nat) → Nat → Bool → Int → Nat → Option (Nat × Nat) × FatCache
  | _, c, _, _, _, _, _, _, _, _, 0 => (none, c)
  | s, c, clu, secleft, lba, dirOff, lfn, n, m, uPos, fuel + 1 =>
    if 512 ≤ dirOff then
      -- fetch the next directory sector (loader_x86.c:1363-1372)
      if secleft ≠ 0 then
        biosOpenGo v s c clu (secleft - 1) (lba + 1) 0 lfn n m uPos fuel
      else if clu < 2 ∨ 0x0FFFFFF8 ≤ clu then (none, c)
      else
        let lba2 := clu * v.bpb.spc + dataLba v
        let (clu2, c2) := biosNextclu v c clu
        biosOpenGo v s c2 clu2 (v.bpb.spc - 1) lba2 0 lfn n m uPos fuel
    else
      let b : Nat → Nat := fun j => db v lba (dirOff + j)
      if b 0 = 0 then (none, c)  -- empty slot: end of directory (loader_x86.c:1375)
      else if b 0 = 5 ∨ b 0 = 0xE5 ∨ (b 0 = 46 ∧ (b 1 = 46 ∨ b 1 = 32)) then
        biosOpenGo v s c clu secleft lba (dirOff + 32) lfn n m uPos fuel
      else if b 0xB = 0xF then
        -- LFN slot (loader_x86.c:1379-1398)
        if n = 0 ∨ b 0 / 64 % 2 = 1 then
          let n2 := b 0 % 32
          if n2 < 1 ∨ 20 < n2 then
            biosOpenGo v s c clu secleft lba (dirOff + 32) lfn 0 false uPos fuel
          else
            let p : Int := (n2 - 1 : Nat) * 13
            let lfn2 := lfnSlotStore (fun _ => 0) p b
            biosOpenGo v s c clu secleft lba (dirOff + 32) lfn2 (n2 - 1)
              (decide (n2 - 1 = 0 ∧ p - 13 < 0)) (p - 13) fuel
        else
          let lfn2 := lfnSlotStore lfn uPos b
          biosOpenGo v s c clu secleft lba (dirOff + 32) lfn2 (n - 1)
            (decide (n - 1 = 0 ∧ uPos - 13 < 0)) (uPos - 13) fuel
      else if b 0xB % 16 / 8 = 1 then
        -- volume label (attr bit 8): ignored (loader_x86.c:1400)
        biosOpenGo v s c clu secleft lba (dirOff + 32) lfn n m uPos fuel
      else
        let lfn2 := if m then lfn else lfnStore lfn (name83 b)
        let s2 := if s.getD 0 0 = 47 then s.drop 1 else s
        let i := matchLen lfn2 s2
        if lfn2 i = 0 then
          let clu2 := b 0x15 % 256 * 16777216 + b 0x14 % 256 * 65536 + b 0x1B % 256 * 256 + b 0x1A
          if b 0xB / 16 % 2 = 1 then
            -- directory: the next path unit must be '/' (loader_x86.c:1424-1428)
            if s2.getD i 0 ≠ 47 then (none, c)
            else biosOpenGo v (s2.drop (i + 1)) c clu2 0 lba 512 lfn2 0 false uPos fuel
          else if clu2 < 2 ∨ 0x0FFFFFF8 ≤ clu2 then (none, c)
          else
            (some (clu2, b 0x1F % 256 * 16777216 + b 0x1E % 256 * 65536 +
                          b 0x1D % 256 * 256 + b 0x1C), c)
        else
          biosOpenGo v s2 c clu secleft lba (dirOff + 32) lfn2 n false uPos fuel

/-- `bios_open(fn)` (loader_x86.c:1350-1442): start at the root cluster
with an empty `lfn` buffer and the sector-fetch sentinel. -/
def biosOpen (v : Vol) (c : FatCache) (path : List Nat) (fuel : Nat) :
    Option (Nat × Nat) × FatCache :=
  if path.getD 0 0 = 0 then (none, c)
  else biosOpenGo v path c v.bpb.rc 0 0 512 (fun _ => 0) 0 false 0 fuel

/-! ### `efi_read` (loader_x86.c:1011-1042)

The open file is its byte list; `f->SetPosition` / `f->Read` are modelled
as reads of that list (no I/O errors), and the key-press poll is the
quiet case.  `blk` is `pb_init`'s batch size: 0 means no progress bar and
a single `f->Read` of the whole (truncated) size. -/

/-- The batched read loop (loader_x86.c:1023-1032). -/
def efiReadLoop (file : List Nat) (pos size2 : Nat) : Nat → Nat → Nat → List Nat →
    Nat × List Nat
  | 0, _, _, acc => (size2, acc)
  | fuel + 1, curr, blk, acc =>
    if curr < size2 then
      let bs := if size2 - curr < blk then size2 - curr else blk
      efiReadLoop file pos size2 fuel (curr + bs) bs (acc ++ ((file.drop (pos + curr)).take bs))
    else (size2, acc)

/-- `efi_read(offs, size, buf)`: guard, truncation to
`file_size - offs`, then one batch or the loop; returns the C return
value (the truncated `size`) and the bytes delivered to `buf`. -/
def efiRead (file : List Nat) (fileSize : Nat) (fPresent bufPresent : Bool)
    (offs size blk : Nat) : Nat × List Nat :=
  if ¬fPresent ∨ fileSize ≤ offs ∨ size = 0 ∨ ¬bufPresent then (0, [])
  else
    let size2 := if fileSize < offs + size then fileSize - offs else size
    if blk ≠ 0 then efiReadLoop file offs size2 (size2 + 1) 0 blk []
    else (size2, (file.drop offs).take size2)

/-- `fw_read(offs, size, buf)` (loader_x86.c:1731-1735): the common
guard, then the UEFI or BIOS backend. -/
def fwRead (st rootDir : Bool) (v : Vol) (c : FatCache) (fileClu : Nat)
    (file : List Nat) (fileSize : Nat) (bufPresent : Bool) (blk : Nat)
    (offs size : Nat) : (Nat × List Nat) × FatCache :=
  if ¬rootDir ∨ fileSize ≤ offs ∨ size = 0 ∨ ¬bufPresent then ((0, []), c)
  else if st then (efiRead file fileSize true bufPresent offs size blk, c)
  else biosRead v c fileClu fileSize bufPresent offs size

/-! ## Concrete witness inputs -/

/-- A tiny FAT32 volume: partition at LBA 0, 1 reserved sector, 1 FAT of
1 sector at LBA 1, one sector per cluster, data so that cluster `n` is
sector `n` (`data_lba = 0`).  Sector 2 is the root directory with one
8.3 entry `X` (attr 0x20, start cluster 3, size 5); sector 3 holds
`HELLO`; FAT entries 2 and 3 are end-of-chain. -/
def demoDisk : Nat → Nat → Nat := fun lba i =>
  if lba = 1 then
    if i = 8 ∨ i = 12 then 0xF8
    else if i = 9 ∨ i = 10 ∨ i = 13 ∨ i = 14 then 0xFF
    else if i = 11 ∨ i = 15 then 0x0F
    else 0
  else if lba = 2 then
    if i = 0 then 88
    else if 1 ≤ i ∧ i ≤ 10 then 32
    else if i = 0xB then 0x20
    else if i = 0x1A then 3
    else if i = 0x1C then 5
    else 0
  else if lba = 3 then
    if i = 0 then 72 else if i = 1 then 69 else if i = 2 then 76
    else if i = 3 then 76 else if i = 4 then 79 else 0
  else 0

/-- The demo volume: `spc = 1`, `rsc = 1`, `nf = 1`, `spf32 = 1`,
root cluster 2. -/
def demoVol : Vol := ⟨demoDisk, ⟨1, 1, 1, 1, 2⟩, 0⟩

/-!  ############################  Theorems  ############################ -/

/-! ### Byte-list helper lemmas (for the ACPI patch) -/

theorem writeLE_length (n : Nat) : ∀ (f : List Nat) (off v : Nat),
    (writeLE f off v n).length = f.length := by
  induction n with
  | zero => intro f off v; rfl
  | succ n ih => intro f off v; rw [writeLE, ih, List.length_set]

theorem getD_set_ne (f : List Nat) (i j a : Nat) (h : i ≠ j) :
    (f.set i a).getD j 0 = f.getD j 0 := by
  simp [List.getD, List.getElem?_set_ne h]

theorem getD_writeLE_lt (n : Nat) : ∀ (f : List Nat) (off v j : Nat), j < off →
    (writeLE f off v n).getD j 0 = f.getD j 0 := by
  induction n with
  | zero => intro f off v j _; rfl
  | succ n ih =>
    intro f off v j hj
    rw [writeLE, ih _ _ _ _ (by omega), getD_set_ne _ _ _ _ (by omega)]

theorem readLE_set_outside (n : Nat) : ∀ (f : List Nat) (j a off : Nat),
    j < off ∨ off + n ≤ j → readLE (f.set j a) off n = readLE f off n := by
  induction n with
  | zero => intro f j a off _; rfl
  | succ n ih =>
    intro f j a off h
    rw [readLE, readLE, getD_set_ne _ _ _ _ (by omega), ih _ _ _ _ (by omega)]

theorem readLE_writeLE_outside (n2 : Nat) : ∀ (f : List Nat) (off2 v off n : Nat),
    off2 + n2 ≤ off ∨ off + n ≤ off2 →
    readLE (writeLE f off2 v n2) off n = readLE f off n := by
  induction n2 with
  | zero => intro f off2 v off n _; rfl
  | succ n2 ih =>
    intro f off2 v off n h
    rw [writeLE, ih _ _ _ _ _ (by omega), readLE_set_outside _ _ _ _ _ (by omega)]

theorem getD_set_self (f : List Nat) (i a : Nat) (h : i < f.length) :
    (f.set i a).getD i 0 = a := by
  simp [List.getD, List.getElem?_set_self h]

theorem readLE_writeLE (n : Nat) : ∀ (f : List Nat) (off v : Nat),
    off + n ≤ f.length → readLE (writeLE f off v n) off n = v % 256 ^ n := by
  induction n with
  | zero => intro f off v _; simp [readLE, writeLE, Nat.mod_one]
  | succ n ih =>
    intro f off v h
    rw [writeLE, readLE, getD_writeLE_lt _ _ _ _ _ (by omega),
      getD_set_self _ _ _ (by omega), ih _ _ _ (by simp [List.length_set]; omega)]
    have h256 : (256 : Nat) ^ (n + 1) = 256 * 256 ^ n := by ring
    rw [h256, Nat.mod_mul]

theorem byteSum_set (f : List Nat) : ∀ (i a : Nat), i < f.length →
    byteSum (f.set i a) + f.getD i 0 = byteSum f + a := by
  induction f with
  | nil => intro i a h; simp at h
  | cons x xs ih =>
    intro i a h
    match i with
    | 0 => simp [byteSum, List.set]; omega
    | i + 1 =>
      have := ih i a (by simpa using h)
      simp [byteSum, List.set, List.getD_cons_succ] at this ⊢
      omega

/-! ### C6: the ACPI FADT patch -/

theorem fixChecksum_length (f : List Nat) : (fixChecksum f).length = f.length := by
  simp [fixChecksum]

theorem byteSum_fixChecksum (f : List Nat) (h9 : 9 < f.length) :
    byteSum (fixChecksum f) % 256 = 0 := by
  unfold fixChecksum
  have hlen : (f.set 9 0).length = f.length := by simp
  have hsum := byteSum_set (f.set 9 0) 9 ((256 - byteSum (f.set 9 0) % 256) % 256) (by omega)
  have hget : (f.set 9 0).getD 9 0 = 0 := getD_set_self _ _ _ (by omega)
  rw [hget] at hsum
  omega

theorem readLE_fixChecksum (f : List Nat) (off n : Nat) (h : 9 < off) :
    readLE (fixChecksum f) off n = readLE f off n := by
  unfold fixChecksum
  rw [readLE_set_outside _ _ _ _ _ (by omega), readLE_set_outside _ _ _ _ _ (by omega)]

theorem patchDsdt64_length (f : List Nat) (d : Nat) :
    (patchDsdt64 f d).length = f.length := by
  unfold patchDsdt64; split
  · exact writeLE_length _ _ _ _
  · rfl

/-- C6: when a replacement DSDT blob is present and a FADT was located,
`fw_fini` overwrites `FADT.dsdt` with the low 32 bits of the
replacement's address, overwrites the 64-bit `FADT.x_dsdt` when the FADT
revision is at least 2 and its size exceeds `sizeof(fadt_t) = 148`, and
recomputes the checksum byte so that the FADT bytes sum to 0 mod 256. -/
theorem acpi_patch_correct (f : List Nat) (dsdt : Nat) (hlen : 44 ≤ f.length) :
    byteSum (patchFadt f dsdt) % 256 = 0 ∧
    readLE (patchFadt f dsdt) 40 4 = dsdt % 2 ^ 32 ∧
    (2 ≤ f.getD 8 0 → 148 < f.length → dsdt < 2 ^ 64 →
      readLE (patchFadt f dsdt) 140 8 = dsdt) := by
  have hrev : (patchDsdt32 f dsdt).getD 8 0 = f.getD 8 0 :=
    getD_writeLE_lt _ _ _ _ _ (by omega)
  have hlen1 : (patchDsdt32 f dsdt).length = f.length := writeLE_length _ _ _ _
  have hlen2 : (patchDsdt64 (patchDsdt32 f dsdt) dsdt).length = f.length := by
    rw [patchDsdt64_length, hlen1]
  refine ⟨?_, ?_, ?_⟩
  · exact byteSum_fixChecksum _ (by omega)
  · rw [patchFadt, readLE_fixChecksum _ _ _ (by omega)]
    have h64 : readLE (patchDsdt64 (patchDsdt32 f dsdt) dsdt) 40 4 =
        readLE (patchDsdt32 f dsdt) 40 4 := by
      unfold patchDsdt64; split
      · exact readLE_writeLE_outside _ _ _ _ _ _ (by omega)
      · rfl
    rw [h64, patchDsdt32, readLE_writeLE _ _ _ _ (by omega)]
    have h4 : (256 : Nat) ^ 4 = 2 ^ 32 := by norm_num
    rw [h4, Nat.mod_mod_of_dvd _ dvd_rfl]
  · intro hr hl hd
    have hcond : 2 ≤ (patchDsdt32 f dsdt).getD 8 0 ∧ 148 < (patchDsdt32 f dsdt).length := by
      rw [hrev, hlen1]; exact ⟨hr, hl⟩
    rw [patchFadt, readLE_fixChecksum _ _ _ (by omega), patchDsdt64, if_pos hcond,
      readLE_writeLE _ _ _ _ (by rw [hlen1]; omega)]
    have h8 : (256 : Nat) ^ 8 = 2 ^ 64 := by norm_num
    rw [h8, Nat.mod_mod_of_dvd _ dvd_rfl, Nat.mod_eq_of_lt hd]

/-- Witness for `acpi_patch_correct` at a concrete 149-byte FADT with
revision 2. -/
theorem acpi_patch_correct_witness :
    44 ≤ ((List.replicate 149 1).set 8 2 : List Nat).length ∧
    (byteSum (patchFadt ((List.replicate 149 1).set 8 2) 0x123456789A) % 256 = 0 ∧
     readLE (patchFadt ((List.replicate 149 1).set 8 2) 0x123456789A) 40 4 =
       0x123456789A % 2 ^ 32 ∧
     (2 ≤ ((List.replicate 149 1).set 8 2 : List Nat).getD 8 0 →
      148 < ((List.replicate 149 1).set 8 2 : List Nat).length → (0x123456789A : Nat) < 2 ^ 64 →
      readLE (patchFadt ((List.replicate 149 1).set 8 2) 0x123456789A) 140 8 =
        0x123456789A)) :=
  ⟨by decide, acpi_patch_correct ((List.replicate 149 1).set 8 2) 0x123456789A (by decide)⟩

/-! ### C10: the framebuffer directive range check -/

/-- C10: when any of the three integers parsed from a
`framebuffer <width> <height> <bpp>` line is out of range (width outside
320..65536, height outside 200..65536, bpp outside 15..32), the handler
resets all three requested values to the current video mode's width,
height and bpp; the request is dropped silently (no error path exists in
this branch). -/
theorem framebuffer_range_reset (vw vh vb : Nat) (st : CfgState)
    (aSuf : List Char) (aLeft : Nat)
    (h : (fbParse aSuf aLeft).1 < 320 ∨ 65536 < (fbParse aSuf aLeft).1 ∨
         (fbParse aSuf aLeft).2.1 < 200 ∨ 65536 < (fbParse aSuf aLeft).2.1 ∨
         (fbParse aSuf aLeft).2.2 < 15 ∨ 32 < (fbParse aSuf aLeft).2.2) :
    fbDirective vw vh vb st aSuf aLeft = { st with fbw := vw, fbh := vh, fbbpp := vb } := by
  rcases hp : fbParse aSuf aLeft with ⟨w, h2, b⟩
  rw [hp] at h
  simp only [fbDirective, hp]
  rw [if_pos]
  simp only at h
  omega

/-- Witness for `framebuffer_range_reset`: `framebuffer 99 300 32` is out
of range (99 < 320) and leaves the video mode values in place. -/
theorem framebuffer_range_reset_witness :
    ((fbParse ("99 300 32".toList) 9).1 < 320 ∨ 65536 < (fbParse ("99 300 32".toList) 9).1 ∨
     (fbParse ("99 300 32".toList) 9).2.1 < 200 ∨ 65536 < (fbParse ("99 300 32".toList) 9).2.1 ∨
     (fbParse ("99 300 32".toList) 9).2.2 < 15 ∨ 32 < (fbParse ("99 300 32".toList) 9).2.2) ∧
    fbDirective 640 480 32 ⟨none, none, false, 0, 1024, 768, 24, 0, none, 0⟩
      ("99 300 32".toList) 9 =
      { kernel := none, cmdline := none, smp := false, verbose := 0,
        fbw := 640, fbh := 480, fbbpp := 32, fbbg := 0, splash := none, menu := 0 } :=
  ⟨by decide, framebuffer_range_reset 640 480 32 _ _ 9 (by decide)⟩

/-! ### C4: the Linux boot-protocol set-up -/

/-- C4 counterexample: for a concrete Linux kernel header (boot_flag
0xAA55, magic `HdrS`, version 0x20c) the code stores `vid_mode = 0xffff`
(loader_x86.c:2143), not the 0xfffd the claim states. -/
theorem linux_vidmode_counterexample :
    (fwLoadkernelLinux ⟨1, 0xAA55, HDRSMAG, 0x20c, 0x100000, 0x1000⟩ 0x2000).map
        LinLoad.vidMode = some 0xffff ∧
    (fwLoadkernelLinux ⟨1, 0xAA55, HDRSMAG, 0x20c, 0x100000, 0x1000⟩ 0x2000).map
        LinLoad.vidMode ≠ some 0xfffd := by
  constructor <;> decide

/-- C4 (amended): when `fw_loadkernel` detects a Linux/x86 boot-protocol
kernel (boot_flag 0xAA55, magic `HdrS`, version at least 0x20C, and
`pref_address + file_size` fitting in 32 bits), it sets
`type_of_loader = 0xFF`, `root_dev = 0x100` and `vid_mode = 0xFFFF`,
loads the image from file offset `(setup_sects+1)*512` (with
`setup_sects` defaulted to 4 when zero) to physical address
`pref_address` with size `init_size`, and sets the kernel entry point to
`pref_address + 512`. -/
theorem linux_kernel_setup (h : LinuxHdr) (fs : Nat)
    (hbf : h.bootFlag = 0xAA55) (hmag : h.headerMagic = HDRSMAG)
    (hver : 0x20c ≤ h.version) (hfit : h.prefAddress + fs < 2 ^ 32) :
    fwLoadkernelLinux h fs = some {
      typeOfLoader := 0xff, rootDev := 0x100, rootFlags := 1, vidMode := 0xffff,
      segOffs := ((if h.setupSects = 0 then 4 else h.setupSects) + 1) * 512,
      segFilesz := h.initSize, segVaddr := h.prefAddress, segMemsz := h.initSize,
      entry := h.prefAddress + 512 } := by
  unfold fwLoadkernelLinux
  rw [if_pos ⟨hbf, hmag⟩, if_neg (by push_neg; exact ⟨by omega, Nat.div_eq_of_lt hfit⟩)]

/-- Witness for `linux_kernel_setup` at a concrete header. -/
theorem linux_kernel_setup_witness :
    ((0xAA55 : Nat) = 0xAA55 ∧ HDRSMAG = HDRSMAG ∧ (0x20c : Nat) ≤ 0x20d ∧
      (0x100000 : Nat) + 0x2000 < 2 ^ 32) ∧
    fwLoadkernelLinux ⟨0, 0xAA55, HDRSMAG, 0x20d, 0x100000, 0x1000⟩ 0x2000 = some {
      typeOfLoader := 0xff, rootDev := 0x100, rootFlags := 1, vidMode := 0xffff,
      segOffs := ((if (0 : Nat) = 0 then 4 else 0) + 1) * 512,
      segFilesz := 0x1000, segVaddr := 0x100000, segMemsz := 0x1000,
      entry := 0x100000 + 512 } :=
  ⟨⟨rfl, rfl, by norm_num, by norm_num⟩,
    linux_kernel_setup ⟨0, 0xAA55, HDRSMAG, 0x20d, 0x100000, 0x1000⟩ 0x2000
      rfl rfl (by norm_num) (by norm_num)⟩

/-! ### C7: top-of-RAM -/

theorem specTopOfRam_cons (e : MmapEnt) (rest : List MmapEnt) :
    specTopOfRam (e :: rest) =
      if e.ty = MEM_AVAILABLE then max (e.base + e.len) (specTopOfRam rest)
      else specTopOfRam rest := by
  unfold specTopOfRam
  by_cases h : e.ty = MEM_AVAILABLE <;> simp [h, List.filter_cons]

theorem specTopOfRamEfi_cons (d : EfiDesc) (rest : List EfiDesc) :
    specTopOfRamEfi (d :: rest) =
      if d.ty = EFI_CONVENTIONAL then max (d.phys + d.pages * 4096) (specTopOfRamEfi rest)
      else specTopOfRamEfi rest := by
  unfold specTopOfRamEfi
  by_cases h : d.ty = EFI_CONVENTIONAL <;> simp [h, List.filter_cons]

theorem efiRamScan_eq_max (descs : List EfiDesc) : ∀ ram : Nat,
    efiRamScan descs ram = max ram (specTopOfRamEfi descs) := by
  induction descs with
  | nil => intro ram; simp [efiRamScan, specTopOfRamEfi]
  | cons d rest ih =>
    intro ram
    rw [efiRamScan, ih, specTopOfRamEfi_cons]
    split_ifs with h1 h2 <;> simp_all <;> omega

theorem sortInner_of_sorted (arr : List MmapEnt)
    (hs : List.Pairwise (fun a b => a.base ≤ b.base) arr) (i : Nat) (hi : i < arr.length) :
    sortInner arr i = arr := by
  match i with
  | 0 => rfl
  | j + 1 =>
    rw [sortInner, if_neg]
    have hj : j < arr.length := by omega
    have := (List.pairwise_iff_get.mp hs) ⟨j, hj⟩ ⟨j + 1, hi⟩ (by simp)
    rw [List.getD_eq_getElem _ _ hi, List.getD_eq_getElem _ _ hj]
    simp only [List.get_eq_getElem] at this
    omega

theorem sortMapGo_of_sorted (arr : List MmapEnt)
    (hs : List.Pairwise (fun a b => a.base ≤ b.base) arr) :
    ∀ (fuel i ram : Nat), arr.length - i ≤ fuel →
    (sortMapGo arr ram i fuel).2 = max ram (specTopOfRam (arr.drop i)) := by
  intro fuel
  induction fuel with
  | zero =>
    intro i ram hle
    have : arr.drop i = [] := List.drop_eq_nil_of_le (by omega)
    simp [sortMapGo, this, specTopOfRam]
  | succ fuel ih =>
    intro i ram hle
    rw [sortMapGo]
    by_cases hi : i < arr.length
    · rw [if_pos hi, sortInner_of_sorted arr hs i hi, ih (i + 1) _ (by omega)]
      have hdrop : arr.drop i = arr[i] :: arr.drop (i + 1) :=
        List.drop_eq_getElem_cons hi
      rw [hdrop, specTopOfRam_cons, List.getD_eq_getElem _ _ hi]
      split_ifs with h1 h2 <;> simp_all <;> omega
    · rw [if_neg hi]
      have : arr.drop i = [] := List.drop_eq_nil_of_le (by omega)
      simp [this, specTopOfRam]

/-- C7 counterexample: a memory map consisting of a single Available
entry `[0, 0x400000)`.  The claim says `ram` becomes `0x400000`
(already 2 MiB aligned); `sort_map`'s loop starts at `i = 1` and never
inspects the entry, so `ram` stays 0. -/
theorem topOfRam_counterexample :
    ramRound ((sortMap [⟨0, 0x400000, 1⟩] 0).2) = 0 ∧
    ramRound (specTopOfRam [⟨0, 0x400000, 1⟩]) = 0x400000 ∧
    ramRound ((sortMap [⟨0, 0x400000, 1⟩] 0).2) ≠
      ramRound (specTopOfRam [⟨0, 0x400000, 1⟩]) := by
  refine ⟨by decide, by decide, by decide⟩

/-- C7 (amended): on the UEFI path (`efi_memmap` with `dst == NULL`,
called from `fw_loadsetup`), `ram` is the largest
`PhysicalStart + NumberOfPages * 4096` over `EfiConventionalMemory`
descriptors, which `fw_loadsetup` then rounds down to 2 MiB.  On the
BIOS path, `sort_map` raises `ram` only from the entry sitting at
position `i` after each insertion step for `i = 1 .. n-1`; for an
already-sorted memory map this is the largest `base + length` over
Available entries other than the first entry (so a single-entry map
leaves `ram` untouched). -/
theorem topOfRam_amended :
    (∀ descs : List EfiDesc, ramRound (efiRamScan descs 0) = ramRound (specTopOfRamEfi descs)) ∧
    (∀ (arr : List MmapEnt) (ram0 : Nat),
      List.Pairwise (fun a b => a.base ≤ b.base) arr →
      (sortMap arr ram0).2 = max ram0 (specTopOfRam arr.tail)) := by
  constructor
  · intro descs
    rw [efiRamScan_eq_max]
    simp
  · intro arr ram0 hs
    rw [sortMap, sortMapGo_of_sorted arr hs _ _ _ (by omega), List.drop_one]

/-- Witness for `topOfRam_amended` on a sorted two-entry BIOS map. -/
theorem topOfRam_amended_witness :
    List.Pairwise (fun a b => a.base ≤ b.base)
      [(⟨0, 0x200000, 1⟩ : MmapEnt), ⟨0x200000, 0x400000, 1⟩] ∧
    (sortMap [(⟨0, 0x200000, 1⟩ : MmapEnt), ⟨0x200000, 0x400000, 1⟩] 0).2 =
      max 0 (specTopOfRam ([(⟨0, 0x200000, 1⟩ : MmapEnt), ⟨0x200000, 0x400000, 1⟩].tail)) :=
  ⟨by decide, topOfRam_amended.2 _ 0 (by decide)⟩

/-! ### C3: the `fw_loadseg` memory-map check on BIOS -/

/-- C3 counterexample: with the memory map `[⟨0, 0x50000⟩ reserved]`,
`ram = 0x800000` and a segment at `vaddr = 0x100000` of size 0x1000, no
entry contains `vaddr`, so the page-rounded target range lies in no
Available entry; the claim says the load must fail, but `fw_loadseg`
falls through the scan and succeeds (loader_x86.c:2082). -/
theorem loadseg_counterexample :
    fwLoadsegBios [⟨0, 0x50000, 2⟩] 0x800000 100 false 0x100000 0x1000 = true ∧
    ¬ specFirstSlotOk [⟨0, 0x50000, 2⟩] 0x100000
        (pageCeil (0x1000 + 0x100000 % 4096)) := by
  constructor
  · decide
  · rintro ⟨pre, e, post, heq, -, hcont, -, -⟩
    have he : e ∈ [(⟨0, 0x50000, 2⟩ : MmapEnt)] := by
      rw [heq]; exact List.mem_append_right _ (List.mem_cons_self _ _)
    simp at he
    rw [he] at hcont
    simp at hcont

/-- C3 (amended): on the BIOS path, for a nonempty segment of a file
with nonzero size whose `vaddr` is above the loader's reserved low
memory and at or below top-of-RAM, `fw_loadseg` succeeds if and only if
either no memory-map entry contains `vaddr` (the code then loads
optimistically), or the first entry containing `vaddr` is Available and
reaches at least to the end of the target range as the code computes it:
the page-rounded size truncated to the `uint32_t` variable it is stored
in (loader_x86.c:2048, loader_x86.c:2052), so for
`memsz + (vaddr & 4095) ≥ 0xFFFFF001` the wrapped `size` also disarms
the coverage check.  In every other case it fails with the
memory-in-use error. -/
theorem loadseg_bios_decision (memmap : List MmapEnt) (ram fs : Nat) (mapOk : Bool)
    (vaddr memsz : Nat) (hm : memsz ≠ 0) (hf : fs ≠ 0)
    (hres : loaderReserved ≤ vaddr) (hram : vaddr ≤ ram) :
    fwLoadsegBios memmap ram fs mapOk vaddr memsz = true ↔
      (specNoSlot memmap vaddr ∨
       specFirstSlotOk memmap vaddr (pageCeil (memsz + vaddr % 4096) % 2 ^ 32)) := by
  unfold fwLoadsegBios
  rw [if_neg (by omega), if_neg (by omega), if_neg (by omega)]
  induction memmap with
  | nil =>
    simp [findSlot, specNoSlot, specFirstSlotOk]
  | cons e rest ih =>
    by_cases hc : e.base ≤ vaddr ∧ vaddr < e.base + e.len
    · rw [findSlot, List.find?_cons_of_pos _ (by simpa using hc)]
      constructor
      · intro h
        right
        refine ⟨[], e, rest, rfl, by simp [specNoSlot], hc, ?_⟩
        simpa using h
      · rintro (hno | ⟨pre, x, post, heq, hnopre, hcx, hav, hcov⟩)
        · exact absurd hc (hno e (List.mem_cons_self _ _))
        · have hx : x = e := by
            match pre, heq with
            | [], heq =>
              have h2 : e = x ∧ rest = post := by simpa using heq
              exact h2.1.symm
            | p :: pre2, heq =>
              have hpe : p = e := by simpa using congrArg (List.headD · e) heq.symm
              exact absurd hc (by
                have := hnopre p (List.mem_cons_self _ _)
                rwa [hpe] at this)
          subst hx
          simpa using And.intro hav hcov
    · rw [findSlot, List.find?_cons_of_neg _ (by simpa using hc)]
      unfold findSlot at ih
      rw [ih]
      constructor
      · rintro (hno | ⟨pre, x, post, heq, hnopre, hcx, hav, hcov⟩)
        · left
          intro y hy
          rcases List.mem_cons.mp hy with h | h
          · rw [h]; exact hc
          · exact hno y h
        · right
          exact ⟨e :: pre, x, post, by rw [heq, List.cons_append], by
            intro y hy
            rcases List.mem_cons.mp hy with h | h
            · rw [h]; exact hc
            · exact hnopre y h, hcx, hav, hcov⟩
      · rintro (hno | ⟨pre, x, post, heq, hnopre, hcx, hav, hcov⟩)
        · left; exact fun y hy => hno y (List.mem_cons_of_mem _ hy)
        · match pre, heq with
          | [], heq =>
            have hx : x = e := by simpa using congrArg (List.headD · e) heq.symm
            rw [hx] at hcx
            exact absurd hcx hc
          | p :: pre2, heq =>
            right
            have htl : rest = pre2 ++ x :: post := by simpa using congrArg List.tail heq
            exact ⟨pre2, x, post, htl, fun y hy => hnopre y (List.mem_cons_of_mem _ hy),
              hcx, hav, hcov⟩

/-- Witness for `loadseg_bios_decision`: a segment fully inside a single
Available entry succeeds. -/
theorem loadseg_bios_decision_witness :
    ((0x1000 : Nat) ≠ 0 ∧ (5 : Nat) ≠ 0 ∧ loaderReserved ≤ 0x100000 ∧
      (0x100000 : Nat) ≤ 0x800000) ∧
    (fwLoadsegBios [⟨0x100000, 0x100000, 1⟩] 0x800000 5 false 0x100000 0x1000 = true ↔
      (specNoSlot [⟨0x100000, 0x100000, 1⟩] 0x100000 ∨
       specFirstSlotOk [⟨0x100000, 0x100000, 1⟩] 0x100000
         (pageCeil (0x1000 + 0x100000 % 4096) % 2 ^ 32))) :=
  ⟨⟨by decide, by decide, by decide, by decide⟩,
    loadseg_bios_decision _ _ _ false _ _ (by decide) (by decide) (by decide) (by decide)⟩

/-! ### C5: well-formedness of the MBI tag list -/

theorem align8_mod (n : Nat) : align8 n % 8 = 0 := Nat.mul_mod_left _ _

theorem align8_of_ge (n : Nat) (h : n ≤ 8) (h2 : 0 < n) : align8 n = 8 := by
  interval_cases n <;> rfl

theorem endOffset_append (ts1 : List Tag) : ∀ (ts2 : List Tag) (start : Nat),
    endOffset start (ts1 ++ ts2) = endOffset (endOffset start ts1) ts2 := by
  induction ts1 with
  | nil => intro ts2 start; rfl
  | cons t ts ih => intro ts2 start; rw [List.cons_append, endOffset, endOffset, ih]

theorem tagOffsets_append (ts1 : List Tag) : ∀ (ts2 : List Tag) (start : Nat),
    tagOffsets start (ts1 ++ ts2) =
      tagOffsets start ts1 ++ tagOffsets (endOffset start ts1) ts2 := by
  induction ts1 with
  | nil => intro ts2 start; rfl
  | cons t ts ih =>
    intro ts2 start
    rw [List.cons_append, tagOffsets, tagOffsets, endOffset, ih, List.cons_append]

theorem tagOffsets_aligned (ts : List Tag) : ∀ start : Nat, start % 8 = 0 →
    ∀ o ∈ tagOffsets start ts, o % 8 = 0 := by
  induction ts with
  | nil => intro start _ o ho; simp [tagOffsets] at ho
  | cons t ts ih =>
    intro start hs o ho
    rw [tagOffsets] at ho
    rcases List.mem_cons.mp ho with h | h
    · rw [h]; exact hs
    · exact ih _ (by simp [Nat.add_mod, hs, align8_mod]) o h

theorem sysTags_ty_ne_zero (sm : Option Nat) (ac : Option AcpiSrc) :
    ∀ t ∈ sysTags sm ac, t.ty ≠ 0 := by
  intro t ht
  unfold sysTags at ht
  rcases List.mem_append.mp ht with h | h <;>
    split at h <;>
      first
      | (rw [List.mem_singleton.mp h]; simp)
      | simp at h

theorem loadsetupTags_ty_ne_zero (cfg : MbiCfg) :
    ∀ t ∈ loadsetupTags cfg, t.ty ≠ 0 := by
  intro t ht
  unfold loadsetupTags at ht
  rcases List.mem_append.mp ht with ht | hst
  · rcases List.mem_append.mp ht with h | h
    · rw [List.mem_singleton.mp h]; simp
    · split at h
      · rw [List.mem_singleton.mp h]; simp
      · simp at h
  · split at hst
    · exact sysTags_ty_ne_zero _ _ t hst
    · rcases List.mem_append.mp hst with h | h
      · exact sysTags_ty_ne_zero _ _ t h
      · split at h
        · rw [List.mem_singleton.mp h]; simp
        · simp at h

theorem moduleTags_ty_ne_zero (ls : List Nat) : ∀ t ∈ moduleTags ls, t.ty ≠ 0 := by
  intro t ht
  unfold moduleTags at ht
  rcases List.mem_map.mp ht with ⟨len, _, h⟩
  rw [← h]
  simp

theorem finiTags_ty_ne_zero (cfg : MbiCfg) : ∀ t ∈ finiTags cfg, t.ty ≠ 0 := by
  intro t ht
  unfold finiTags at ht
  rcases List.mem_append.mp ht with ht | hst
  · rcases List.mem_append.mp ht with ht | h
    · rcases List.mem_append.mp ht with ht | h
      · rcases List.mem_append.mp ht with h | h
        · split at h
          · rw [List.mem_singleton.mp h]; simp
          · simp at h
        · split at h
          · rw [List.mem_singleton.mp h]; simp
          · simp at h
      · split at h
        · rw [List.mem_singleton.mp h]; simp
        · simp at h
    · rw [List.mem_singleton.mp h]; simp
  · split at hst
    · rcases List.mem_append.mp hst with h | h
      · split at h
        · rw [List.mem_singleton.mp h]; simp
        · simp at h
      · rcases List.mem_cons.mp h with h2 | h2
        · rw [h2]; simp
        · rw [List.mem_singleton.mp h2]; simp
    · simp at hst

theorem endOffset_concat (front : List Tag) (x : Tag) (start : Nat) :
    endOffset start (front ++ [x]) = endOffset start front + align8 x.sz := by
  rw [endOffset_append]; rfl

theorem tagOffsets_getLastD_concat (front : List Tag) (x : Tag) (start : Nat) :
    (tagOffsets start (front ++ [x])).getLastD 0 = endOffset start front := by
  have h1 : tagOffsets (endOffset start front) [x] = [endOffset start front] := rfl
  rw [tagOffsets_append, h1, List.getLastD_concat]

theorem mbiTags_eq_concat (cfg : MbiCfg) :
    mbiTags cfg =
      (loadsetupTags cfg ++ (moduleTags cfg.modules ++ finiTags cfg)) ++ [⟨0, 8⟩] := by
  unfold mbiTags
  simp [List.append_assoc]

theorem mbiFront_ty_ne_zero (cfg : MbiCfg) :
    ∀ t ∈ loadsetupTags cfg ++ (moduleTags cfg.modules ++ finiTags cfg), t.ty ≠ 0 := by
  intro t ht
  rcases List.mem_append.mp ht with h | ht
  · exact loadsetupTags_ty_ne_zero cfg t h
  rcases List.mem_append.mp ht with h | h
  · exact moduleTags_ty_ne_zero _ t h
  · exact finiTags_ty_ne_zero cfg t h

/-- C5: after `fw_fini` with a tag buffer present, the MBI tag list is
well-formed: (1) `total_size` equals the byte offset of the terminator
tag plus 8, (2) every tag starts on an 8-byte boundary, and (3) a tag of
type 0 with size 8 appears exactly once and it is the last tag. -/
theorem mbi_wellformed (cfg : MbiCfg) :
    totalSize cfg = (tagOffsets 8 (mbiTags cfg)).getLastD 0 + 8 ∧
    (∀ o ∈ tagOffsets 8 (mbiTags cfg), o % 8 = 0) ∧
    ((mbiTags cfg).filter (fun t => t.ty = 0)).length = 1 ∧
    (mbiTags cfg).getLastD ⟨1, 0⟩ = ⟨0, 8⟩ := by
  have hconcat := mbiTags_eq_concat cfg
  have hfront := mbiFront_ty_ne_zero cfg
  refine ⟨?_, ?_, ?_, ?_⟩
  · rw [totalSize, hconcat, endOffset_concat, tagOffsets_getLastD_concat]
    norm_num [show align8 8 = 8 from rfl]
  · intro o ho
    exact tagOffsets_aligned _ 8 (by norm_num) o ho
  · rw [hconcat, List.filter_append]
    have hnil : (loadsetupTags cfg ++ (moduleTags cfg.modules ++ finiTags cfg)).filter
        (fun t => t.ty = 0) = [] := by
      rw [List.filter_eq_nil_iff]
      intro t ht
      simpa using hfront t ht
    rw [hnil]
    rfl
  · rw [hconcat, List.getLastD_concat]

/-- C1: refuted by the code — `fw_map` does not fail on an overlapping
mapping.  The 4 KiB-level store (loader_x86.c:2032) is guarded by
`if(!*ptr)` with no `else return 0`, despite the comment above it calling
an already-mapped page invalid.  Here the first call maps virtual page
`0x1000` to `0x200000` and returns 1; the second call on the very same
page returns 1 as well (the claim requires 0), silently keeping the old
entry `0x200000 | 3`. -/
theorem map_overlap_unchecked :
    mapDemo1.1 = 1 ∧ mapDemo1.2.tab 0x103000 1 = 0x200003 ∧
    mapDemo2.1 = 1 ∧ mapDemo2.2.tab 0x103000 1 = 0x200003 := by
  refine ⟨?_, ?_, ?_, ?_⟩ <;> decide

/-! ### C2: the backup-mode line filter of the config parser -/

set_option maxHeartbeats 1000000
open Simpleboot

theorem dropWhile_cons_of_false {α} {q : α → Bool} {a : α} {l : List α} (h : q a = false) :
    (a :: l).dropWhile q = a :: l := by simp [List.dropWhile_cons, h]

theorem takeWhile_append_all {α} (q : α → Bool) (l1 l2 : List α) (h : ∀ a ∈ l1, q a = true) :
    (l1 ++ l2).takeWhile q = l1 ++ l2.takeWhile q := by
  induction l1 with
  | nil => rfl
  | cons a l ih =>
    rw [List.cons_append, List.takeWhile_cons, if_pos (by simp [h a (List.mem_cons_self a l)]),
      List.cons_append, ih (fun b hb => h b (List.mem_cons_of_mem _ hb))]

theorem takeWhile_nil_all {α} (q : α → Bool) (l : List α) (h : ∀ a ∈ l, q a = false) :
    l.takeWhile q = [] := by
  cases l with
  | nil => rfl
  | cons a t => rw [List.takeWhile_cons, if_neg (by simp [h a (List.mem_cons_self a t)])]

theorem skipPath_all (t : List Char) : ∀ p : List Char,
    (∀ c ∈ p, c ≠ ' ' ∧ c ≠ '\r' ∧ c ≠ '\n' ∧ c ≠ '\\') →
    skipPath (p ++ t) p.length = (t, 0) := by
  intro p
  induction p with
  | nil =>
    intro _
    rw [List.nil_append]
    cases t <;> simp [skipPath]
  | cons c p2 ih =>
    intro h
    have hc := h c (List.mem_cons_self _ _)
    rw [List.cons_append, skipPath, if_neg (by simp), if_neg (by tauto),
      if_neg (by intro hx; exact hc.2.2.2 hx.1)]
    simpa using ih (fun b hb => h b (List.mem_cons_of_mem _ hb))

theorem skipSpaces_zero (t : List Char) : skipSpaces t 0 = (t, 0) := by
  cases t with
  | nil => rfl
  | cons c r => rw [skipSpaces, if_neg (by simp)]

theorem kernelDirective_eval (st : CfgState) (p : List Char)
    (hp : ∀ c ∈ p, c ≠ ' ' ∧ c ≠ '\r' ∧ c ≠ '\n' ∧ c ≠ '\\') :
    kernelDirective st (p ++ ['\n']) p.length = { st with kernel := some p } := by
  unfold kernelDirective
  rw [skipPath_all _ _ hp]
  simp [skipSpaces_zero, List.take_left]

theorem takeWhile_cons_false {α} {q : α → Bool} {a : α} (l : List α) (h : q a = false) :
    (a :: l).takeWhile q = [] := by
  simp [List.takeWhile_cons, h]

theorem take_cons_ne {a b : Char} (s t : List Char) (n : Nat) (hab : a ≠ b) :
    (a :: s).take (n + 1) ≠ b :: t := by
  intro h
  rw [List.take_succ_cons] at h
  injection h with h1 h2
  exact hab h1

theorem loadConfigGo_ws (vidW vidH vidB : Nat) (fbColor : Nat → Nat → Nat → Nat)
    (bkp : Bool) (s : List Char) (st : CfgState) (h : s.dropWhile isWsp = []) :
    ∀ fuel, loadConfigGo vidW vidH vidB fbColor bkp s st fuel = st
  | 0 => rfl
  | fuel + 1 => by
    rw [loadConfigGo]
    dsimp only
    rw [h]
    rw [if_pos rfl]

theorem loadConfigGo_backupkernel (vw vh vb : Nat) (fbC : Nat → Nat → Nat → Nat)
    (p : List Char) (hne : p ≠ [])
    (hp : ∀ c ∈ p, c ≠ ' ' ∧ c ≠ '\r' ∧ c ≠ '\n' ∧ c ≠ '\\') (st0 : CfgState) :
    loadConfigGo vw vh vb fbC true ("backupkernel ".toList ++ (p ++ ['\n'])) st0
      (p.length + 14 + 1) = { st0 with kernel := some p } := by
  have hpE : ∀ c ∈ p, notEol c = true := by
    intro c hc
    have := hp c hc
    simp [notEol]
    exact ⟨this.2.1, this.2.2.1⟩
  have hpS : ∀ c ∈ p, (fun x => decide (x = ' ')) c = false := by
    intro c hc
    simp
    exact (hp c hc).1
  have hs1 : ("backupkernel ".toList ++ (p ++ ['\n'])).dropWhile isWsp =
      "backupkernel ".toList ++ (p ++ ['\n']) :=
    dropWhile_cons_of_false (show isWsp 'b' = false from rfl)
  have hline : ("backupkernel ".toList ++ (p ++ ['\n'])).takeWhile notEol =
      "backupkernel ".toList ++ p := by
    rw [takeWhile_append_all _ _ _ (by decide), takeWhile_append_all _ _ _ hpE,
      takeWhile_nil_all _ _ (by decide), List.append_nil]
  have htake6 : ("backupkernel ".toList ++ (p ++ ['\n'])).take 6 = "backup".toList := by
    rw [List.take_append_of_le_length (by decide)]
    decide
  have hT : (if (true : Bool) = true
        then ("backupkernel ".toList ++ (p ++ ['\n'])).drop 6
        else ("backupkernel ".toList ++ (p ++ ['\n']))) =
      "kernel ".toList ++ (p ++ ['\n']) := by
    rw [if_pos rfl,
      show ("backupkernel ".toList : List Char) = "backup".toList ++ "kernel ".toList from
        by decide,
      List.append_assoc,
      show (6 : Nat) = ("backup".toList : List Char).length from by decide, List.drop_left]
  have hTokLen : (("backupkernel ".toList ++ p).takeWhile (fun x => decide (x ≠ ' '))).length
      = 12 := by
    rw [show "backupkernel ".toList ++ p = "backupkernel".toList ++ (' ' :: p) from rfl]
    rw [takeWhile_append_all _ _ _ (by decide), takeWhile_cons_false _ (by decide),
      List.append_nil]
    decide
  have hSpLen : ((("backupkernel ".toList ++ p).drop 12).takeWhile
      (fun x => decide (x = ' '))).length = 1 := by
    rw [show "backupkernel ".toList ++ p = "backupkernel".toList ++ (' ' :: p) from rfl]
    rw [show (12 : Nat) = ("backupkernel".toList : List Char).length from by decide,
      List.drop_left]
    rw [List.takeWhile_cons_of_pos (by decide), takeWhile_nil_all _ _ hpS]
    rfl
  have hLeft : ("backupkernel ".toList ++ p).length - (12 + 1) = p.length := by
    rw [show ("backupkernel ".toList ++ p).length = 13 + p.length from by
      rw [List.length_append,
        show ("backupkernel ".toList : List Char).length = 13 from by decide]]
    omega
  have hlne : ¬(p.length = 0) := by
    rw [List.length_eq_zero]
    exact hne
  have hSuf : ("backupkernel ".toList ++ (p ++ ['\n'])).drop (12 + 1) = p ++ ['\n'] := by
    rw [show (12 + 1 : Nat) = ("backupkernel ".toList : List Char).length from by decide,
      List.drop_left]
  have hRest : ("backupkernel ".toList ++ (p ++ ['\n'])).drop
      ("backupkernel ".toList ++ p).length = ['\n'] := by
    rw [show "backupkernel ".toList ++ (p ++ ['\n']) =
      ("backupkernel ".toList ++ p) ++ ['\n'] from (List.append_assoc _ _ _).symm,
      List.drop_left]
  have hM : ¬(("kernel ".toList ++ (p ++ ['\n'])).take 9 = "multicore".toList) := by
    rw [show "kernel ".toList ++ (p ++ ['\n']) =
      'k' :: ("ernel ".toList ++ (p ++ ['\n'])) from rfl]
    rw [show "multicore".toList = 'm' :: "ulticore".toList from rfl]
    exact take_cons_ne _ _ 8 (by decide)
  have hMe : ¬(("kernel ".toList ++ (p ++ ['\n'])).take 9 = "menuentry".toList) := by
    rw [show "kernel ".toList ++ (p ++ ['\n']) =
      'k' :: ("ernel ".toList ++ (p ++ ['\n'])) from rfl]
    rw [show "menuentry".toList = 'm' :: "enuentry".toList from rfl]
    exact take_cons_ne _ _ 8 (by decide)
  have hV : ¬(("kernel ".toList ++ (p ++ ['\n'])).take 7 = "verbose".toList) := by
    rw [show "kernel ".toList ++ (p ++ ['\n']) =
      'k' :: ("ernel ".toList ++ (p ++ ['\n'])) from rfl]
    rw [show "verbose".toList = 'v' :: "erbose".toList from rfl]
    exact take_cons_ne _ _ 6 (by decide)
  have hF : ¬(("kernel ".toList ++ (p ++ ['\n'])).take 11 = "framebuffer".toList) := by
    rw [show "kernel ".toList ++ (p ++ ['\n']) =
      'k' :: ("ernel ".toList ++ (p ++ ['\n'])) from rfl]
    rw [show "framebuffer".toList = 'f' :: "ramebuffer".toList from rfl]
    exact take_cons_ne _ _ 10 (by decide)
  have hB : ¬(("kernel ".toList ++ (p ++ ['\n'])).take 10 = "bootsplash".toList) := by
    rw [show "kernel ".toList ++ (p ++ ['\n']) =
      'k' :: ("ernel ".toList ++ (p ++ ['\n'])) from rfl]
    rw [show "bootsplash".toList = 'b' :: "ootsplash".toList from rfl]
    exact take_cons_ne _ _ 9 (by decide)
  have hK6 : ("kernel ".toList ++ (p ++ ['\n'])).take 6 = "kernel".toList := by
    rw [List.take_append_of_le_length (by decide)]
    decide
  rw [loadConfigGo]
  dsimp only
  rw [hs1, hline]
  rw [if_neg (by simp)]
  rw [htake6]
  rw [if_neg (show ¬(true ≠ decide ("backup".toList = "backup".toList)) from by decide)]
  rw [hT]
  rw [if_neg hM]
  rw [hTokLen, hSpLen, hLeft, hSuf, hRest]
  rw [if_neg hlne, if_neg hMe, if_neg hV, if_neg hF, if_neg hB]
  rw [if_pos ⟨hlne, hK6⟩]
  rw [kernelDirective_eval st0 p hp]
  exact loadConfigGo_ws _ _ _ _ _ _ _ (by decide) _

theorem loadModulesGo_ws (bkp : Bool) (s : List Char) (acc : List (List Char))
    (h : s.dropWhile isWsp = []) :
    ∀ fuel, loadModulesGo bkp s acc fuel = acc
  | 0 => rfl
  | fuel + 1 => by
    rw [loadModulesGo]
    dsimp only
    rw [h]
    rw [if_pos rfl]

theorem loadConfigGo_backupkernel_skip (vw vh vb : Nat) (fbC : Nat → Nat → Nat → Nat)
    (p : List Char)
    (hp : ∀ c ∈ p, c ≠ ' ' ∧ c ≠ '\r' ∧ c ≠ '\n' ∧ c ≠ '\\') (st0 : CfgState) :
    loadConfigGo vw vh vb fbC false ("backupkernel ".toList ++ (p ++ ['\n'])) st0
      (p.length + 14 + 1) = st0 := by
  have hpE : ∀ c ∈ p, notEol c = true := by
    intro c hc
    have := hp c hc
    simp [notEol]
    exact ⟨this.2.1, this.2.2.1⟩
  have hs1 : ("backupkernel ".toList ++ (p ++ ['\n'])).dropWhile isWsp =
      "backupkernel ".toList ++ (p ++ ['\n']) :=
    dropWhile_cons_of_false (show isWsp 'b' = false from rfl)
  have hline : ("backupkernel ".toList ++ (p ++ ['\n'])).takeWhile notEol =
      "backupkernel ".toList ++ p := by
    rw [takeWhile_append_all _ _ _ (by decide), takeWhile_append_all _ _ _ hpE,
      takeWhile_nil_all _ _ (by decide), List.append_nil]
  have htake6 : ("backupkernel ".toList ++ (p ++ ['\n'])).take 6 = "backup".toList := by
    rw [List.take_append_of_le_length (by decide)]
    decide
  have hRest : ("backupkernel ".toList ++ (p ++ ['\n'])).drop
      ("backupkernel ".toList ++ p).length = ['\n'] := by
    rw [show "backupkernel ".toList ++ (p ++ ['\n']) =
      ("backupkernel ".toList ++ p) ++ ['\n'] from (List.append_assoc _ _ _).symm,
      List.drop_left]
  rw [loadConfigGo]
  dsimp only
  rw [hs1, hline]
  rw [if_neg (by simp)]
  rw [htake6]
  rw [if_pos (show false ≠ decide ("backup".toList = "backup".toList) from by decide)]
  rw [hRest]
  exact loadConfigGo_ws _ _ _ _ _ _ _ (by decide) _

theorem loadConfigGo_plainkernel_skip (vw vh vb : Nat) (fbC : Nat → Nat → Nat → Nat)
    (p : List Char)
    (hp : ∀ c ∈ p, c ≠ ' ' ∧ c ≠ '\r' ∧ c ≠ '\n' ∧ c ≠ '\\') (st0 : CfgState) :
    loadConfigGo vw vh vb fbC true ("kernel ".toList ++ (p ++ ['\n'])) st0
      (p.length + 8 + 1) = st0 := by
  have hpE : ∀ c ∈ p, notEol c = true := by
    intro c hc
    have := hp c hc
    simp [notEol]
    exact ⟨this.2.1, this.2.2.1⟩
  have hs1 : ("kernel ".toList ++ (p ++ ['\n'])).dropWhile isWsp =
      "kernel ".toList ++ (p ++ ['\n']) :=
    dropWhile_cons_of_false (show isWsp 'k' = false from rfl)
  have hline : ("kernel ".toList ++ (p ++ ['\n'])).takeWhile notEol =
      "kernel ".toList ++ p := by
    rw [takeWhile_append_all _ _ _ (by decide), takeWhile_append_all _ _ _ hpE,
      takeWhile_nil_all _ _ (by decide), List.append_nil]
  have htake6 : ("kernel ".toList ++ (p ++ ['\n'])).take 6 = "kernel".toList := by
    rw [List.take_append_of_le_length (by decide)]
    decide
  have hRest : ("kernel ".toList ++ (p ++ ['\n'])).drop
      ("kernel ".toList ++ p).length = ['\n'] := by
    rw [show "kernel ".toList ++ (p ++ ['\n']) =
      ("kernel ".toList ++ p) ++ ['\n'] from (List.append_assoc _ _ _).symm,
      List.drop_left]
  rw [loadConfigGo]
  dsimp only
  rw [hs1, hline]
  rw [if_neg (by simp)]
  rw [htake6]
  rw [if_pos (show true ≠ decide ("kernel".toList = "backup".toList) from by decide)]
  rw [hRest]
  exact loadConfigGo_ws _ _ _ _ _ _ _ (by decide) _

theorem loadConfigGo_plainkernel (vw vh vb : Nat) (fbC : Nat → Nat → Nat → Nat)
    (p : List Char) (hne : p ≠ [])
    (hp : ∀ c ∈ p, c ≠ ' ' ∧ c ≠ '\r' ∧ c ≠ '\n' ∧ c ≠ '\\') (st0 : CfgState) :
    loadConfigGo vw vh vb fbC false ("kernel ".toList ++ (p ++ ['\n'])) st0
      (p.length + 8 + 1) = { st0 with kernel := some p } := by
  have hpE : ∀ c ∈ p, notEol c = true := by
    intro c hc
    have := hp c hc
    simp [notEol]
    exact ⟨this.2.1, this.2.2.1⟩
  have hpS : ∀ c ∈ p, (fun x => decide (x = ' ')) c = false := by
    intro c hc
    simp
    exact (hp c hc).1
  have hs1 : ("kernel ".toList ++ (p ++ ['\n'])).dropWhile isWsp =
      "kernel ".toList ++ (p ++ ['\n']) :=
    dropWhile_cons_of_false (show isWsp 'k' = false from rfl)
  have hline : ("kernel ".toList ++ (p ++ ['\n'])).takeWhile notEol =
      "kernel ".toList ++ p := by
    rw [takeWhile_append_all _ _ _ (by decide), takeWhile_append_all _ _ _ hpE,
      takeWhile_nil_all _ _ (by decide), List.append_nil]
  have htake6 : ("kernel ".toList ++ (p ++ ['\n'])).take 6 = "kernel".toList := by
    rw [List.take_append_of_le_length (by decide)]
    decide
  have hT : (if (false : Bool) = true
        then ("kernel ".toList ++ (p ++ ['\n'])).drop 6
        else ("kernel ".toList ++ (p ++ ['\n']))) =
      "kernel ".toList ++ (p ++ ['\n']) := by
    rw [if_neg (show ¬((false : Bool) = true) from by decide)]
  have hTokLen : (("kernel ".toList ++ p).takeWhile (fun x => decide (x ≠ ' '))).length
      = 6 := by
    rw [show "kernel ".toList ++ p = "kernel".toList ++ (' ' :: p) from rfl]
    rw [takeWhile_append_all _ _ _ (by decide), takeWhile_cons_false _ (by decide),
      List.append_nil]
    decide
  have hSpLen : ((("kernel ".toList ++ p).drop 6).takeWhile
      (fun x => decide (x = ' '))).length = 1 := by
    rw [show "kernel ".toList ++ p = "kernel".toList ++ (' ' :: p) from rfl]
    rw [show (6 : Nat) = ("kernel".toList : List Char).length from by decide,
      List.drop_left]
    rw [List.takeWhile_cons_of_pos (by decide), takeWhile_nil_all _ _ hpS]
    rfl
  have hLeft : ("kernel ".toList ++ p).length - (6 + 1) = p.length := by
    rw [show ("kernel ".toList ++ p).length = 7 + p.length from by
      rw [List.length_append,
        show ("kernel ".toList : List Char).length = 7 from by decide]]
    omega
  have hlne : ¬(p.length = 0) := by
    rw [List.length_eq_zero]
    exact hne
  have hSuf : ("kernel ".toList ++ (p ++ ['\n'])).drop (6 + 1) = p ++ ['\n'] := by
    rw [show (6 + 1 : Nat) = ("kernel ".toList : List Char).length from by decide,
      List.drop_left]
  have hRest : ("kernel ".toList ++ (p ++ ['\n'])).drop
      ("kernel ".toList ++ p).length = ['\n'] := by
    rw [show "kernel ".toList ++ (p ++ ['\n']) =
      ("kernel ".toList ++ p) ++ ['\n'] from (List.append_assoc _ _ _).symm,
      List.drop_left]
  have hM : ¬(("kernel ".toList ++ (p ++ ['\n'])).take 9 = "multicore".toList) := by
    rw [show "kernel ".toList ++ (p ++ ['\n']) =
      'k' :: ("ernel ".toList ++ (p ++ ['\n'])) from rfl]
    rw [show "multicore".toList = 'm' :: "ulticore".toList from rfl]
    exact take_cons_ne _ _ 8 (by decide)
  have hMe : ¬(("kernel ".toList ++ (p ++ ['\n'])).take 9 = "menuentry".toList) := by
    rw [show "kernel ".toList ++ (p ++ ['\n']) =
      'k' :: ("ernel ".toList ++ (p ++ ['\n'])) from rfl]
    rw [show "menuentry".toList = 'm' :: "enuentry".toList from rfl]
    exact take_cons_ne _ _ 8 (by decide)
  have hV : ¬(("kernel ".toList ++ (p ++ ['\n'])).take 7 = "verbose".toList) := by
    rw [show "kernel ".toList ++ (p ++ ['\n']) =
      'k' :: ("ernel ".toList ++ (p ++ ['\n'])) from rfl]
    rw [show "verbose".toList = 'v' :: "erbose".toList from rfl]
    exact take_cons_ne _ _ 6 (by decide)
  have hF : ¬(("kernel ".toList ++ (p ++ ['\n'])).take 11 = "framebuffer".toList) := by
    rw [show "kernel ".toList ++ (p ++ ['\n']) =
      'k' :: ("ernel ".toList ++ (p ++ ['\n'])) from rfl]
    rw [show "framebuffer".toList = 'f' :: "ramebuffer".toList from rfl]
    exact take_cons_ne _ _ 10 (by decide)
  have hB : ¬(("kernel ".toList ++ (p ++ ['\n'])).take 10 = "bootsplash".toList) := by
    rw [show "kernel ".toList ++ (p ++ ['\n']) =
      'k' :: ("ernel ".toList ++ (p ++ ['\n'])) from rfl]
    rw [show "bootsplash".toList = 'b' :: "ootsplash".toList from rfl]
    exact take_cons_ne _ _ 9 (by decide)
  have hK6 : ("kernel ".toList ++ (p ++ ['\n'])).take 6 = "kernel".toList := by
    rw [List.take_append_of_le_length (by decide)]
    decide
  rw [loadConfigGo]
  dsimp only
  rw [hs1, hline]
  rw [if_neg (by simp)]
  rw [htake6]
  rw [if_neg (show ¬(false ≠ decide ("kernel".toList = "backup".toList)) from by decide)]
  rw [hT]
  rw [if_neg hM]
  rw [hTokLen, hSpLen, hLeft, hSuf, hRest]
  rw [if_neg hlne, if_neg hMe, if_neg hV, if_neg hF, if_neg hB]
  rw [if_pos ⟨hlne, hK6⟩]
  rw [kernelDirective_eval st0 p hp]
  exact loadConfigGo_ws _ _ _ _ _ _ _ (by decide) _

theorem loadModulesGo_backupmodule (p : List Char) (hne : p ≠ [])
    (hp : ∀ c ∈ p, c ≠ ' ' ∧ c ≠ '\r' ∧ c ≠ '\n' ∧ c ≠ '\\') (acc : List (List Char)) :
    loadModulesGo true ("backupmodule ".toList ++ (p ++ ['\n'])) acc
      (p.length + 14 + 1) = acc ++ [p] := by
  have hpE : ∀ c ∈ p, notEol c = true := by
    intro c hc
    have := hp c hc
    simp [notEol]
    exact ⟨this.2.1, this.2.2.1⟩
  have hpS : ∀ c ∈ p, (fun x => decide (x = ' ')) c = false := by
    intro c hc
    simp
    exact (hp c hc).1
  have hs1 : ("backupmodule ".toList ++ (p ++ ['\n'])).dropWhile isWsp =
      "backupmodule ".toList ++ (p ++ ['\n']) :=
    dropWhile_cons_of_false (show isWsp 'b' = false from rfl)
  have hline : ("backupmodule ".toList ++ (p ++ ['\n'])).takeWhile notEol =
      "backupmodule ".toList ++ p := by
    rw [takeWhile_append_all _ _ _ (by decide), takeWhile_append_all _ _ _ hpE,
      takeWhile_nil_all _ _ (by decide), List.append_nil]
  have htake6 : ("backupmodule ".toList ++ (p ++ ['\n'])).take 6 = "backup".toList := by
    rw [List.take_append_of_le_length (by decide)]
    decide
  have hT : (if (true : Bool) = true
        then ("backupmodule ".toList ++ (p ++ ['\n'])).drop 6
        else ("backupmodule ".toList ++ (p ++ ['\n']))) =
      "module ".toList ++ (p ++ ['\n']) := by
    rw [if_pos rfl,
      show ("backupmodule ".toList : List Char) = "backup".toList ++ "module ".toList from
        by decide,
      List.append_assoc,
      show (6 : Nat) = ("backup".toList : List Char).length from by decide, List.drop_left]
  have hTokLen : (("backupmodule ".toList ++ p).takeWhile (fun x => decide (x ≠ ' '))).length
      = 12 := by
    rw [show "backupmodule ".toList ++ p = "backupmodule".toList ++ (' ' :: p) from rfl]
    rw [takeWhile_append_all _ _ _ (by decide), takeWhile_cons_false _ (by decide),
      List.append_nil]
    decide
  have hSpLen : ((("backupmodule ".toList ++ p).drop 12).takeWhile
      (fun x => decide (x = ' '))).length = 1 := by
    rw [show "backupmodule ".toList ++ p = "backupmodule".toList ++ (' ' :: p) from rfl]
    rw [show (12 : Nat) = ("backupmodule".toList : List Char).length from by decide,
      List.drop_left]
    rw [List.takeWhile_cons_of_pos (by decide), takeWhile_nil_all _ _ hpS]
    rfl
  have hLeft : ("backupmodule ".toList ++ p).length - (12 + 1) = p.length := by
    rw [show ("backupmodule ".toList ++ p).length = 13 + p.length from by
      rw [List.length_append,
        show ("backupmodule ".toList : List Char).length = 13 from by decide]]
    omega
  have hlne : ¬(p.length = 0) := by
    rw [List.length_eq_zero]
    exact hne
  have hSuf : ("backupmodule ".toList ++ (p ++ ['\n'])).drop (12 + 1) = p ++ ['\n'] := by
    rw [show (12 + 1 : Nat) = ("backupmodule ".toList : List Char).length from by decide,
      List.drop_left]
  have hRest : ("backupmodule ".toList ++ (p ++ ['\n'])).drop
      ("backupmodule ".toList ++ p).length = ['\n'] := by
    rw [show "backupmodule ".toList ++ (p ++ ['\n']) =
      ("backupmodule ".toList ++ p) ++ ['\n'] from (List.append_assoc _ _ _).symm,
      List.drop_left]
  have hK6 : ("module ".toList ++ (p ++ ['\n'])).take 6 = "module".toList := by
    rw [List.take_append_of_le_length (by decide)]
    decide
  rw [loadModulesGo]
  dsimp only
  rw [hs1, hline]
  rw [if_neg (by simp)]
  rw [htake6, hT, hTokLen, hSpLen, hLeft, hSuf, hRest]
  rw [if_neg (by
    rintro (h | h)
    · exact hlne h
    · exact h (by decide))]
  rw [if_pos hK6]
  rw [List.take_left]
  exact loadModulesGo_ws _ _ _ (by decide) _

theorem loadModulesGo_backupmodule_skip (p : List Char)
    (hp : ∀ c ∈ p, c ≠ ' ' ∧ c ≠ '\r' ∧ c ≠ '\n' ∧ c ≠ '\\') (acc : List (List Char)) :
    loadModulesGo false ("backupmodule ".toList ++ (p ++ ['\n'])) acc
      (p.length + 14 + 1) = acc := by
  have hpE : ∀ c ∈ p, notEol c = true := by
    intro c hc
    have := hp c hc
    simp [notEol]
    exact ⟨this.2.1, this.2.2.1⟩
  have hs1 : ("backupmodule ".toList ++ (p ++ ['\n'])).dropWhile isWsp =
      "backupmodule ".toList ++ (p ++ ['\n']) :=
    dropWhile_cons_of_false (show isWsp 'b' = false from rfl)
  have hline : ("backupmodule ".toList ++ (p ++ ['\n'])).takeWhile notEol =
      "backupmodule ".toList ++ p := by
    rw [takeWhile_append_all _ _ _ (by decide), takeWhile_append_all _ _ _ hpE,
      takeWhile_nil_all _ _ (by decide), List.append_nil]
  have htake6 : ("backupmodule ".toList ++ (p ++ ['\n'])).take 6 = "backup".toList := by
    rw [List.take_append_of_le_length (by decide)]
    decide
  have hRest : ("backupmodule ".toList ++ (p ++ ['\n'])).drop
      ("backupmodule ".toList ++ p).length = ['\n'] := by
    rw [show "backupmodule ".toList ++ (p ++ ['\n']) =
      ("backupmodule ".toList ++ p) ++ ['\n'] from (List.append_assoc _ _ _).symm,
      List.drop_left]
  rw [loadModulesGo]
  dsimp only
  rw [hs1, hline]
  rw [if_neg (by simp)]
  rw [htake6]
  rw [if_pos (Or.inr (by decide))]
  rw [hRest]
  exact loadModulesGo_ws _ _ _ (by decide) _

theorem loadModulesGo_plainmodule (p : List Char) (hne : p ≠ [])
    (hp : ∀ c ∈ p, c ≠ ' ' ∧ c ≠ '\r' ∧ c ≠ '\n' ∧ c ≠ '\\') (acc : List (List Char)) :
    loadModulesGo false ("module ".toList ++ (p ++ ['\n'])) acc
      (p.length + 8 + 1) = acc ++ [p] := by
  have hpE : ∀ c ∈ p, notEol c = true := by
    intro c hc
    have := hp c hc
    simp [notEol]
    exact ⟨this.2.1, this.2.2.1⟩
  have hpS : ∀ c ∈ p, (fun x => decide (x = ' ')) c = false := by
    intro c hc
    simp
    exact (hp c hc).1
  have hs1 : ("module ".toList ++ (p ++ ['\n'])).dropWhile isWsp =
      "module ".toList ++ (p ++ ['\n']) :=
    dropWhile_cons_of_false (show isWsp 'm' = false from rfl)
  have hline : ("module ".toList ++ (p ++ ['\n'])).takeWhile notEol =
      "module ".toList ++ p := by
    rw [takeWhile_append_all _ _ _ (by decide), takeWhile_append_all _ _ _ hpE,
      takeWhile_nil_all _ _ (by decide), List.append_nil]
  have htake6 : ("module ".toList ++ (p ++ ['\n'])).take 6 = "module".toList := by
    rw [List.take_append_of_le_length (by decide)]
    decide
  have hT : (if (false : Bool) = true
        then ("module ".toList ++ (p ++ ['\n'])).drop 6
        else ("module ".toList ++ (p ++ ['\n']))) =
      "module ".toList ++ (p ++ ['\n']) := by
    rw [if_neg (show ¬((false : Bool) = true) from by decide)]
  have hTokLen : (("module ".toList ++ p).takeWhile (fun x => decide (x ≠ ' '))).length
      = 6 := by
    rw [show "module ".toList ++ p = "module".toList ++ (' ' :: p) from rfl]
    rw [takeWhile_append_all _ _ _ (by decide), takeWhile_cons_false _ (by decide),
      List.append_nil]
    decide
  have hSpLen : ((("module ".toList ++ p).drop 6).takeWhile
      (fun x => decide (x = ' '))).length = 1 := by
    rw [show "module ".toList ++ p = "module".toList ++ (' ' :: p) from rfl]
    rw [show (6 : Nat) = ("module".toList : List Char).length from by decide,
      List.drop_left]
    rw [List.takeWhile_cons_of_pos (by decide), takeWhile_nil_all _ _ hpS]
    rfl
  have hLeft : ("module ".toList ++ p).length - (6 + 1) = p.length := by
    rw [show ("module ".toList ++ p).length = 7 + p.length from by
      rw [List.length_append,
        show ("module ".toList : List Char).length = 7 from by decide]]
    omega
  have hlne : ¬(p.length = 0) := by
    rw [List.length_eq_zero]
    exact hne
  have hSuf : ("module ".toList ++ (p ++ ['\n'])).drop (6 + 1) = p ++ ['\n'] := by
    rw [show (6 + 1 : Nat) = ("module ".toList : List Char).length from by decide,
      List.drop_left]
  have hRest : ("module ".toList ++ (p ++ ['\n'])).drop
      ("module ".toList ++ p).length = ['\n'] := by
    rw [show "module ".toList ++ (p ++ ['\n']) =
      ("module ".toList ++ p) ++ ['\n'] from (List.append_assoc _ _ _).symm,
      List.drop_left]
  rw [loadModulesGo]
  dsimp only
  rw [hs1, hline]
  rw [if_neg (by simp)]
  rw [htake6, hT, hTokLen, hSpLen, hLeft, hSuf, hRest]
  rw [if_neg (by
    rintro (h | h)
    · exact hlne h
    · exact h (by decide))]
  rw [if_pos htake6]
  rw [List.take_left]
  exact loadModulesGo_ws _ _ _ (by decide) _

theorem loadModulesGo_plainmodule_skip (p : List Char)
    (hp : ∀ c ∈ p, c ≠ ' ' ∧ c ≠ '\r' ∧ c ≠ '\n' ∧ c ≠ '\\') (acc : List (List Char)) :
    loadModulesGo true ("module ".toList ++ (p ++ ['\n'])) acc
      (p.length + 8 + 1) = acc := by
  have hpE : ∀ c ∈ p, notEol c = true := by
    intro c hc
    have := hp c hc
    simp [notEol]
    exact ⟨this.2.1, this.2.2.1⟩
  have hs1 : ("module ".toList ++ (p ++ ['\n'])).dropWhile isWsp =
      "module ".toList ++ (p ++ ['\n']) :=
    dropWhile_cons_of_false (show isWsp 'm' = false from rfl)
  have hline : ("module ".toList ++ (p ++ ['\n'])).takeWhile notEol =
      "module ".toList ++ p := by
    rw [takeWhile_append_all _ _ _ (by decide), takeWhile_append_all _ _ _ hpE,
      takeWhile_nil_all _ _ (by decide), List.append_nil]
  have htake6 : ("module ".toList ++ (p ++ ['\n'])).take 6 = "module".toList := by
    rw [List.take_append_of_le_length (by decide)]
    decide
  have hRest : ("module ".toList ++ (p ++ ['\n'])).drop
      ("module ".toList ++ p).length = ['\n'] := by
    rw [show "module ".toList ++ (p ++ ['\n']) =
      ("module ".toList ++ p) ++ ['\n'] from (List.append_assoc _ _ _).symm,
      List.drop_left]
  rw [loadModulesGo]
  dsimp only
  rw [hs1, hline]
  rw [if_neg (by simp)]
  rw [htake6]
  rw [if_pos (Or.inr (by decide))]
  rw [hRest]
  exact loadModulesGo_ws _ _ _ (by decide) _

/-- C2: the `backup` filter of `fw_loadconfig` (loader_x86.c:1783-1786) and
`fw_loadmodules` (loader_x86.c:1930-1931).  Because the match advances past
`backup` only (`s += 6`, no space), the active backup directives are the
unspaced `backupkernel <path>` / `backupmodule <path>`; the filter itself
works as specified: a `backup`-prefixed line is processed exactly in backup
mode and an unprefixed line exactly in primary mode. -/
theorem backup_mode_filter (vw vh vb : Nat) (fbC : Nat → Nat → Nat → Nat) (d63 : Nat)
    (p : List Char) (hne : p ≠ [])
    (hp : ∀ c ∈ p, c ≠ ' ' ∧ c ≠ '\r' ∧ c ≠ '\n' ∧ c ≠ '\\') :
    (loadConfig vw vh vb fbC d63 true
        ("backupkernel ".toList ++ (p ++ ['\n']))).kernel = some p
  ∧ (loadConfig vw vh vb fbC d63 false
        ("backupkernel ".toList ++ (p ++ ['\n']))).kernel = some "kernel".toList
  ∧ (loadConfig vw vh vb fbC d63 false
        ("kernel ".toList ++ (p ++ ['\n']))).kernel = some p
  ∧ (loadConfig vw vh vb fbC d63 true
        ("kernel ".toList ++ (p ++ ['\n']))).kernel = some "kernel".toList
  ∧ loadModules true ("backupmodule ".toList ++ (p ++ ['\n'])) = [p]
  ∧ loadModules false ("backupmodule ".toList ++ (p ++ ['\n'])) = []
  ∧ loadModules false ("module ".toList ++ (p ++ ['\n'])) = [p]
  ∧ loadModules true ("module ".toList ++ (p ++ ['\n'])) = [] := by
  have hfuel14 : ("backupkernel ".toList ++ (p ++ ['\n'])).length + 1 =
      (p.length + 14) + 1 := by
    simp [List.length_append]
  have hfuel14m : ("backupmodule ".toList ++ (p ++ ['\n'])).length + 1 =
      (p.length + 14) + 1 := by
    simp [List.length_append]
  have hfuel8 : ("kernel ".toList ++ (p ++ ['\n'])).length + 1 =
      (p.length + 8) + 1 := by
    simp [List.length_append]
  have hfuel8m : ("module ".toList ++ (p ++ ['\n'])).length + 1 =
      (p.length + 8) + 1 := by
    simp [List.length_append]
  refine ⟨?_, ?_, ?_, ?_, ?_, ?_, ?_, ?_⟩
  · unfold loadConfig
    rw [hfuel14]
    dsimp only
    rw [loadConfigGo_backupkernel vw vh vb fbC p hne hp _]
    simp
  · unfold loadConfig
    rw [hfuel14]
    dsimp only
    rw [loadConfigGo_backupkernel_skip vw vh vb fbC p hp _]
    simp [apply_ite CfgState.kernel]
  · unfold loadConfig
    rw [hfuel8]
    dsimp only
    rw [loadConfigGo_plainkernel vw vh vb fbC p hne hp _]
    simp [apply_ite CfgState.kernel]
  · unfold loadConfig
    rw [hfuel8]
    dsimp only
    rw [loadConfigGo_plainkernel_skip vw vh vb fbC p hp _]
    simp
  · unfold loadModules
    rw [hfuel14m]
    rw [loadModulesGo_backupmodule p hne hp []]
    simp
  · unfold loadModules
    rw [hfuel14m]
    rw [loadModulesGo_backupmodule_skip p hp []]
  · unfold loadModules
    rw [hfuel8m]
    rw [loadModulesGo_plainmodule p hne hp []]
    simp
  · unfold loadModules
    rw [hfuel8m]
    rw [loadModulesGo_plainmodule_skip p hp []]

/-- C2 counterexample: the spec's example `backup kernel <path>` (with a
space after `backup`) matches no directive even in backup mode: after
`s += 6` the comparison starts at the space, so `memcmp(s, "kernel", 6)`
fails and the kernel path stays the default `kernel`, not `abc`. -/
theorem backup_space_counterexample :
    (loadConfig 800 600 32 (fun _ _ _ => 0) 0 true "backup kernel abc\n".toList).kernel
        = some "kernel".toList
  ∧ some ("kernel".toList) ≠ some ("abc".toList) := by
  constructor
  · decide
  · decide

/-- Witness for `backup_mode_filter` at the path `abc`. -/
theorem backup_mode_filter_witness :
    (("abc".toList : List Char) ≠ [])
  ∧ (∀ c ∈ ("abc".toList : List Char),
      c ≠ ' ' ∧ c ≠ '\r' ∧ c ≠ '\n' ∧ c ≠ '\\')
  ∧ ((loadConfig 800 600 32 (fun _ _ _ => 0) 0 true
        ("backupkernel ".toList ++ ("abc".toList ++ ['\n']))).kernel = some "abc".toList
    ∧ (loadConfig 800 600 32 (fun _ _ _ => 0) 0 false
        ("backupkernel ".toList ++ ("abc".toList ++ ['\n']))).kernel = some "kernel".toList
    ∧ (loadConfig 800 600 32 (fun _ _ _ => 0) 0 false
        ("kernel ".toList ++ ("abc".toList ++ ['\n']))).kernel = some "abc".toList
    ∧ (loadConfig 800 600 32 (fun _ _ _ => 0) 0 true
        ("kernel ".toList ++ ("abc".toList ++ ['\n']))).kernel = some "kernel".toList
    ∧ loadModules true ("backupmodule ".toList ++ ("abc".toList ++ ['\n'])) = ["abc".toList]
    ∧ loadModules false ("backupmodule ".toList ++ ("abc".toList ++ ['\n'])) = []
    ∧ loadModules false ("module ".toList ++ ("abc".toList ++ ['\n'])) = ["abc".toList]
    ∧ loadModules true ("module ".toList ++ ("abc".toList ++ ['\n'])) = []) :=
  ⟨by decide, by decide,
    backup_mode_filter 800 600 32 (fun _ _ _ => 0) 0 "abc".toList
      (by decide) (by decide)⟩

/-! ### C8 / C9: the readers -/


theorem sectorBytes_length (v : Vol) (lba : Nat) : (sectorBytes v lba).length = 512 := by
  simp [sectorBytes]

theorem efiReadLoop_fst (file : List Nat) (pos size2 : Nat) :
    ∀ (fuel curr blk : Nat) (acc : List Nat),
    (efiReadLoop file pos size2 fuel curr blk acc).1 = size2
  | 0, curr, blk, acc => rfl
  | fuel + 1, curr, blk, acc => by
    rw [efiReadLoop]
    dsimp only
    by_cases h : curr < size2
    · rw [if_pos h]
      exact efiReadLoop_fst file pos size2 fuel _ _ _
    · rw [if_neg h]

theorem efiReadLoop_exact (file : List Nat) (pos size2 : Nat)
    (hlen : pos + size2 ≤ file.length) :
    ∀ (fuel curr blk : Nat) (acc : List Nat), blk ≠ 0 → size2 ≤ curr + fuel →
    efiReadLoop file pos size2 fuel curr blk acc =
      (size2, acc ++ ((file.drop (pos + curr)).take (size2 - curr)))
  | 0, curr, blk, acc, hblk, hf => by
    rw [efiReadLoop]
    have h0 : size2 - curr = 0 := by omega
    rw [h0]
    simp
  | fuel + 1, curr, blk, acc, hblk, hf => by
    rw [efiReadLoop]
    dsimp only
    by_cases h : curr < size2
    · rw [if_pos h]
      set bs := if size2 - curr < blk then size2 - curr else blk with hbsdef
      have hble : bs ≤ size2 - curr ∧ bs ≠ 0 := by
        rw [hbsdef]
        by_cases hb : size2 - curr < blk
        · simp [hb]
          omega
        · simp [hb]
          omega
      rw [efiReadLoop_exact file pos size2 hlen fuel (curr + bs) bs _ hble.2 (by omega)]
      congr 1
      rw [List.append_assoc]
      congr 1
      have hsplit : size2 - curr = bs + (size2 - (curr + bs)) := by omega
      rw [hsplit, List.take_add, List.drop_drop]
      rw [← Nat.add_assoc]
    · rw [if_neg h]
      have h0 : size2 - curr = 0 := by omega
      rw [h0]
      simp

theorem readLoop_len (v : Vol) :
    ∀ (fuel : Nat) (c : FatCache) (rem clu secleft lba os rs : Nat) (acc : List Nat),
    os + rs ≤ 512 →
    (readLoop v fuel c rem clu secleft lba os rs acc).1.1 ≤ rem ∧
    (readLoop v fuel c rem clu secleft lba os rs acc).1.2.length =
      acc.length + (rem - (readLoop v fuel c rem clu secleft lba os rs acc).1.1)
  | 0, c, rem, clu, secleft, lba, os, rs, acc, h => by
    rw [readLoop]
    simp
  | fuel + 1, c, rem, clu, secleft, lba, os, rs, acc, h => by
    rw [readLoop]
    dsimp only
    by_cases h1 : rem = 0
    · rw [if_pos h1]
      simp [h1]
    · rw [if_neg h1]
      by_cases h2 : secleft ≠ 0
      · rw [if_pos h2]
        set rs2 := if rs > rem then rem else rs with hrs2def
        have hrs2 : rs2 ≤ rem ∧ rs2 ≤ rs := by
          rw [hrs2def]
          by_cases hb : rs > rem
          · simp [hb]
            omega
          · simp [hb]
            omega
        have hchunk : (((sectorBytes v (lba + 1)).drop os).take rs2).length = rs2 := by
          rw [List.length_take, List.length_drop, sectorBytes_length]
          omega
        have ih := readLoop_len v fuel c (rem - rs2) clu (secleft - 1) (lba + 1) 0 512
          (acc ++ ((sectorBytes v (lba + 1)).drop os).take rs2) (by omega)
        refine ⟨by omega, ?_⟩
        rw [ih.2, List.length_append, hchunk]
        omega
      · rw [if_neg h2]
        by_cases h3 : clu = 0
        · rw [if_pos h3]
          simp
        · rw [if_neg h3]
          set lba2 := clu * v.bpb.spc + dataLba v with hlba2def
          set rs2 := if rs > rem then rem else rs with hrs2def
          have hrs2 : rs2 ≤ rem ∧ rs2 ≤ rs := by
            rw [hrs2def]
            by_cases hb : rs > rem
            · simp [hb]
              omega
            · simp [hb]
              omega
          have hchunk : (((sectorBytes v lba2).drop os).take rs2).length = rs2 := by
            rw [List.length_take, List.length_drop, sectorBytes_length]
            omega
          have ih := readLoop_len v fuel (biosNextclu v c clu).2 (rem - rs2)
            (biosNextclu v c clu).1 (v.bpb.spc - 1) lba2 0 512
            (acc ++ ((sectorBytes v lba2).drop os).take rs2) (by omega)
          refine ⟨by omega, ?_⟩
          rw [ih.2, List.length_append, hchunk]
          omega

theorem efiRead_fst_le (file : List Nat) (fileSize : Nat) (fp b : Bool)
    (offs size blk : Nat) :
    (efiRead file fileSize fp b offs size blk).1 ≤ fileSize - offs := by
  unfold efiRead
  by_cases hg : (¬fp = true ∨ fileSize ≤ offs ∨ size = 0 ∨ ¬b = true)
  · rw [if_pos hg]
    simp
  · rw [if_neg hg]
    push_neg at hg
    dsimp only
    by_cases hblk : blk ≠ 0
    · rw [if_pos hblk]
      rw [efiReadLoop_fst]
      by_cases hs : fileSize < offs + size
      · simp [hs]
      · simp [hs]
        omega
    · rw [if_neg hblk]
      by_cases hs : fileSize < offs + size
      · simp [hs]
      · simp [hs]
        omega

theorem efiRead_exact (file : List Nat) (fileSize : Nat) (b : Bool)
    (offs size blk : Nat) (hfile : fileSize ≤ file.length)
    (ho : offs < fileSize) (hs : size ≠ 0) (hb : b = true) :
    efiRead file fileSize true b offs size blk =
      ((if fileSize < offs + size then fileSize - offs else size),
       (file.drop offs).take (if fileSize < offs + size then fileSize - offs else size)) := by
  unfold efiRead
  rw [if_neg (by
    push_neg
    refine ⟨rfl, by omega, hs, hb⟩)]
  dsimp only
  have hsz : (if fileSize < offs + size then fileSize - offs else size) ≤
      fileSize - offs := by
    by_cases hc : fileSize < offs + size
    · simp [hc]
    · simp [hc]
      omega
  by_cases hblk : blk ≠ 0
  · rw [if_pos hblk]
    rw [efiReadLoop_exact file offs _ (by omega)
      ((if fileSize < offs + size then fileSize - offs else size) + 1) 0 blk [] hblk
      (by omega)]
    simp
  · rw [if_neg hblk]

theorem biosRead_bytes (v : Vol) (c : FatCache) (fileClu fileSize : Nat) (b : Bool)
    (offs size : Nat) :
    (biosRead v c fileClu fileSize b offs size).1.1 ≤ fileSize - offs ∧
    (biosRead v c fileClu fileSize b offs size).1.2.length =
      (biosRead v c fileClu fileSize b offs size).1.1 := by
  unfold biosRead
  by_cases hg : (fileClu < 2 ∨ fileSize ≤ offs ∨ size = 0 ∨ ¬b = true)
  · rw [if_pos hg]
    simp
  · rw [if_neg hg]
    push_neg at hg
    dsimp only
    have hsz : (if fileSize < offs + size then fileSize - offs else size) ≤
        fileSize - offs := by
      by_cases hc : fileSize < offs + size
      · simp [hc]
      · simp [hc]
        omega
    by_cases ho : offs ≠ 0
    · rw [if_pos ho]
      rcases hcc : (if offs / (v.bpb.spc * 512) ≠ 0 then
          hopClusters v c fileClu (offs / (v.bpb.spc * 512))
        else (fileClu, c)) with ⟨clu, c2⟩
      dsimp only
      by_cases hz : offs / (v.bpb.spc * 512) ≠ 0 ∧ clu = 0
      · rw [if_pos hz]
        simp
      · rw [if_neg hz]
        rcases hR : readLoop v (if fileSize < offs + size then fileSize - offs else size)
            c2 (if fileSize < offs + size then fileSize - offs else size) clu
            (v.bpb.spc - offs % (v.bpb.spc * 512) / 512 - 1)
            (clu * v.bpb.spc + offs % (v.bpb.spc * 512) / 512 - 1 + dataLba v)
            (offs % (v.bpb.spc * 512) % 512) (512 - offs % (v.bpb.spc * 512) % 512) []
          with ⟨⟨rem, bytes⟩, c3⟩
        dsimp only
        have hlen := readLoop_len v (if fileSize < offs + size then fileSize - offs else size)
          c2 (if fileSize < offs + size then fileSize - offs else size) clu
          (v.bpb.spc - offs % (v.bpb.spc * 512) / 512 - 1)
          (clu * v.bpb.spc + offs % (v.bpb.spc * 512) / 512 - 1 + dataLba v)
          (offs % (v.bpb.spc * 512) % 512) (512 - offs % (v.bpb.spc * 512) % 512) []
          (by omega)
        rw [hR] at hlen
        dsimp only at hlen
        refine ⟨by omega, ?_⟩
        rw [hlen.2]
        simp
    · rw [if_neg ho]
      dsimp only
      rcases hR : readLoop v (if fileSize < offs + size then fileSize - offs else size)
          c (if fileSize < offs + size then fileSize - offs else size) fileClu 0 0 0 512 []
        with ⟨⟨rem, bytes⟩, c3⟩
      dsimp only
      have hlen := readLoop_len v (if fileSize < offs + size then fileSize - offs else size)
        c (if fileSize < offs + size then fileSize - offs else size) fileClu 0 0 0 512 []
        (by omega)
      rw [hR] at hlen
      dsimp only at hlen
      refine ⟨by omega, ?_⟩
      rw [hlen.2]
      simp

/-- C9: on both backends `fw_read` never transfers bytes past the end of
the open file.  The guards (`offs >= file_size`, `size == 0`, `buf == NULL`,
loader_x86.c:1453 and loader_x86.c:1018) return 0 with nothing
transferred; the count returned never exceeds `file_size - offs`; on the
UEFI path an out-of-range `offs + size` is silently truncated to exactly
`file_size - offs` bytes (loader_x86.c:1019), and on the BIOS path
(loader_x86.c:1454) the bytes delivered always equal the returned count,
which the same truncation caps at `file_size - offs`. -/
theorem read_never_past_eof (st rootDir : Bool) (v : Vol) (c : FatCache)
    (fileClu : Nat) (file : List Nat) (fileSize : Nat) (bufPresent : Bool)
    (blk offs size : Nat) (hfile : fileSize ≤ file.length) :
    ((fileSize ≤ offs ∨ size = 0 ∨ bufPresent = false) →
      fwRead st rootDir v c fileClu file fileSize bufPresent blk offs size = ((0, []), c))
  ∧ (fwRead st rootDir v c fileClu file fileSize bufPresent blk offs size).1.1 ≤
      fileSize - offs
  ∧ (st = true → rootDir = true → bufPresent = true → offs < fileSize → size ≠ 0 →
      (fwRead st rootDir v c fileClu file fileSize bufPresent blk offs size).1 =
        ((if fileSize < offs + size then fileSize - offs else size),
         (file.drop offs).take (if fileSize < offs + size then fileSize - offs else size)))
  ∧ (st = false →
      (fwRead st rootDir v c fileClu file fileSize bufPresent blk offs size).1.2.length =
        (fwRead st rootDir v c fileClu file fileSize bufPresent blk offs size).1.1) := by
  refine ⟨?_, ?_, ?_, ?_⟩
  · intro h
    unfold fwRead
    rw [if_pos]
    rcases h with h | h | h
    · exact Or.inr (Or.inl h)
    · exact Or.inr (Or.inr (Or.inl h))
    · exact Or.inr (Or.inr (Or.inr (by simp [h])))
  · unfold fwRead
    by_cases hg : (¬rootDir = true ∨ fileSize ≤ offs ∨ size = 0 ∨ ¬bufPresent = true)
    · rw [if_pos hg]
      simp
    · rw [if_neg hg]
      by_cases hst : st = true
      · rw [if_pos hst]
        exact efiRead_fst_le file fileSize true bufPresent offs size blk
      · rw [if_neg hst]
        exact (biosRead_bytes v c fileClu fileSize bufPresent offs size).1
  · intro h1 h2 h3 h4 h5
    unfold fwRead
    rw [if_neg (by
      push_neg
      exact ⟨h2, by omega, h5, h3⟩)]
    rw [if_pos h1]
    exact efiRead_exact file fileSize bufPresent offs size blk hfile h4 h5 h3
  · intro h
    unfold fwRead
    by_cases hg : (¬rootDir = true ∨ fileSize ≤ offs ∨ size = 0 ∨ ¬bufPresent = true)
    · rw [if_pos hg]
      rfl
    · rw [if_neg hg, if_neg (by simp [h])]
      exact (biosRead_bytes v c fileClu fileSize bufPresent offs size).2

theorem loadFatWindow_ok (v : Vol) (clu : Nat) : CacheOK v (loadFatWindow v clu) := by
  unfold CacheOK loadFatWindow
  dsimp only
  constructor
  · omega
  · intro j hj
    unfold fatEntry
    have h1 : fatLba v + clu / 1024 * 1024 / 128 + j / 128 =
        fatLba v + (clu / 1024 * 1024 + j) / 128 := by omega
    have h2 : j % 128 = (clu / 1024 * 1024 + j) % 128 := by omega
    rw [h1, h2]

theorem biosNextclu_pure (v : Vol) (c : FatCache) (clu : Nat) (hc : CacheOK v c) :
    (biosNextclu v c clu).1 = nextcluPure v clu ∧ CacheOK v (biosNextclu v c clu).2 := by
  unfold biosNextclu nextcluPure
  by_cases hg : clu < 2 ∨ 0x0FFFFFF8 ≤ clu
  · rw [if_pos hg, if_pos hg]
    exact ⟨rfl, hc⟩
  · rw [if_neg hg, if_neg hg]
    dsimp only
    by_cases hw : clu < c.base ∨ c.base + 1023 < clu
    · rw [if_pos hw]
      have hok := loadFatWindow_ok v clu
      have hbase : (loadFatWindow v clu).base = clu / 1024 * 1024 := rfl
      have hent := hok.2 (clu - (loadFatWindow v clu).base)
        (by rw [hbase]; omega)
      rw [hent, hbase]
      have : clu / 1024 * 1024 + (clu - clu / 1024 * 1024) = clu := by omega
      rw [this]
      exact ⟨rfl, hok⟩
    · rw [if_neg hw]
      push_neg at hw
      have hent := hc.2 (clu - c.base) (by omega)
      rw [hent]
      have : c.base + (clu - c.base) = clu := by omega
      rw [this]
      exact ⟨rfl, hc⟩

theorem biosOpenGo_cacheOK (v : Vol) :
    ∀ (s : List Nat) (c : FatCache) (clu secleft lba dirOff : Nat)
      (lfn : Nat → Nat) (n : Nat) (m : Bool) (uPos : Int) (fuel : Nat),
    CacheOK v c →
    CacheOK v (biosOpenGo v s c clu secleft lba dirOff lfn n m uPos fuel).2
  | s, c, clu, secleft, lba, dirOff, lfn, n, m, uPos, 0, hc => hc
  | s, c, clu, secleft, lba, dirOff, lfn, n, m, uPos, fuel + 1, hc => by
    rw [biosOpenGo]
    dsimp only
    by_cases h1 : 512 ≤ dirOff
    · rw [if_pos h1]
      by_cases h2 : secleft ≠ 0
      · rw [if_pos h2]
        exact biosOpenGo_cacheOK v _ _ _ _ _ _ _ _ _ _ _ hc
      · rw [if_neg h2]
        by_cases h3 : clu < 2 ∨ 0x0FFFFFF8 ≤ clu
        · rw [if_pos h3]
          exact hc
        · rw [if_neg h3]
          rcases hbc : biosNextclu v c clu with ⟨clu2, c2⟩
          have hp := biosNextclu_pure v c clu hc
          rw [hbc] at hp
          exact biosOpenGo_cacheOK v _ _ _ _ _ _ _ _ _ _ _ hp.2
    · rw [if_neg h1]
      by_cases h4 : db v lba (dirOff + 0) = 0
      · rw [if_pos h4]
        exact hc
      · rw [if_neg h4]
        by_cases h5 : db v lba (dirOff + 0) = 5 ∨ db v lba (dirOff + 0) = 0xE5 ∨
            (db v lba (dirOff + 0) = 46 ∧
              (db v lba (dirOff + 1) = 46 ∨ db v lba (dirOff + 1) = 32))
        · rw [if_pos h5]
          exact biosOpenGo_cacheOK v _ _ _ _ _ _ _ _ _ _ _ hc
        · rw [if_neg h5]
          by_cases h6 : db v lba (dirOff + 0xB) = 0xF
          · rw [if_pos h6]
            by_cases h7 : n = 0 ∨ db v lba (dirOff + 0) / 64 % 2 = 1
            · rw [if_pos h7]
              by_cases h8 : db v lba (dirOff + 0) % 32 < 1 ∨ 20 < db v lba (dirOff + 0) % 32
              · rw [if_pos h8]
                exact biosOpenGo_cacheOK v _ _ _ _ _ _ _ _ _ _ _ hc
              · rw [if_neg h8]
                exact biosOpenGo_cacheOK v _ _ _ _ _ _ _ _ _ _ _ hc
            · rw [if_neg h7]
              exact biosOpenGo_cacheOK v _ _ _ _ _ _ _ _ _ _ _ hc
          · rw [if_neg h6]
            by_cases h9 : db v lba (dirOff + 0xB) % 16 / 8 = 1
            · rw [if_pos h9]
              exact biosOpenGo_cacheOK v _ _ _ _ _ _ _ _ _ _ _ hc
            · rw [if_neg h9]
              by_cases h10 : (if m = true then lfn
                  else lfnStore lfn (name83 (fun j => db v lba (dirOff + j))))
                  (matchLen (if m = true then lfn
                    else lfnStore lfn (name83 (fun j => db v lba (dirOff + j))))
                    (if s.getD 0 0 = 47 then s.drop 1 else s)) = 0
              · rw [if_pos h10]
                by_cases h11 : db v lba (dirOff + 0xB) / 16 % 2 = 1
                · rw [if_pos h11]
                  by_cases h12 : (if s.getD 0 0 = 47 then s.drop 1 else s).getD
                      (matchLen (if m = true then lfn
                        else lfnStore lfn (name83 (fun j => db v lba (dirOff + j))))
                        (if s.getD 0 0 = 47 then s.drop 1 else s)) 0 ≠ 47
                  · rw [if_pos h12]
                    exact hc
                  · rw [if_neg h12]
                    exact biosOpenGo_cacheOK v _ _ _ _ _ _ _ _ _ _ _ hc
                · rw [if_neg h11]
                  by_cases h13 : db v lba (dirOff + 0x15) % 256 * 16777216 +
                      db v lba (dirOff + 0x14) % 256 * 65536 +
                      db v lba (dirOff + 0x1B) % 256 * 256 + db v lba (dirOff + 0x1A) < 2 ∨
                      0x0FFFFFF8 ≤ db v lba (dirOff + 0x15) % 256 * 16777216 +
                      db v lba (dirOff + 0x14) % 256 * 65536 +
                      db v lba (dirOff + 0x1B) % 256 * 256 + db v lba (dirOff + 0x1A)
                  · rw [if_pos h13]
                    exact hc
                  · rw [if_neg h13]
                    exact hc
              · rw [if_neg h10]
                exact biosOpenGo_cacheOK v _ _ _ _ _ _ _ _ _ _ _ hc

theorem biosOpen_cacheOK (v : Vol) (c : FatCache) (path : List Nat) (fuel : Nat)
    (hc : CacheOK v c) : CacheOK v (biosOpen v c path fuel).2 := by
  unfold biosOpen
  by_cases h : path.getD 0 0 = 0
  · rw [if_pos h]
    exact hc
  · rw [if_neg h]
    exact biosOpenGo_cacheOK v _ _ _ _ _ _ _ _ _ _ _ hc

theorem aheadSectors_shift (v : Vol) (k clu : Nat) :
    ∀ (s lba : Nat), aheadSectors v k s lba clu =
      (List.range s).map (fun i => lba + 1 + i) ++ aheadSectors v k 0 (lba + s) clu
  | 0, lba => by
    simp
  | s + 1, lba => by
    rw [aheadSectors, aheadSectors_shift v k clu s (lba + 1)]
    rw [List.range_succ_eq_map, List.map_cons, List.map_map, List.cons_append]
    have h1 : (fun i => lba + 1 + 1 + i) = ((fun i => lba + 1 + i) ∘ Nat.succ) := by
      funext i
      simp
      omega
    rw [h1]
    have h2 : lba + 1 + s = lba + (s + 1) := by omega
    rw [h2]

theorem aheadSectors_zero_irrel (v : Vol) (k clu lba lba2 : Nat) :
    aheadSectors v k 0 lba clu = aheadSectors v k 0 lba2 clu := by
  cases k with
  | zero => simp only [aheadSectors]
  | succ k => simp only [aheadSectors]

theorem aheadSectors_chain (v : Vol) (hspc : 1 ≤ v.bpb.spc) :
    ∀ (k clu lba : Nat), aheadSectors v k 0 lba clu =
      (chainList v k clu).flatMap (clusterSectors v)
  | 0, clu, lba => by
    simp only [aheadSectors]
    simp [chainList]
  | k + 1, clu, lba => by
    rw [aheadSectors, chainList]
    by_cases h : clu = 0
    · rw [if_pos h, if_pos h]
      rfl
    · rw [if_neg h, if_neg h]
      rw [List.flatMap_cons]
      rw [aheadSectors_shift v k (nextcluPure v clu) (v.bpb.spc - 1)
        (clu * v.bpb.spc + dataLba v)]
      rw [aheadSectors_chain v hspc k (nextcluPure v clu) _]
      rw [show clusterSectors v clu = (clu * v.bpb.spc + dataLba v) ::
          (List.range (v.bpb.spc - 1)).map
            (fun i => clu * v.bpb.spc + dataLba v + 1 + i) from by
        unfold clusterSectors
        rw [show v.bpb.spc = (v.bpb.spc - 1) + 1 from by omega, List.range_succ_eq_map]
        simp [List.map_map]
        intro a ha
        omega]
      rw [List.cons_append]

theorem readLoop_exact (v : Vol) (hspc : 1 ≤ v.bpb.spc) :
    ∀ (fuel k : Nat) (c : FatCache) (rem clu secleft lba : Nat) (acc : List Nat),
    CacheOK v c → rem ≤ fuel →
    rem ≤ 512 * (aheadSectors v k secleft lba clu).length →
    (readLoop v fuel c rem clu secleft lba 0 512 acc).1 =
      (0, acc ++ (((aheadSectors v k secleft lba clu).flatMap (sectorBytes v)).take rem))
  | 0, k, c, rem, clu, secleft, lba, acc, hc, hf, hb => by
    have h0 : rem = 0 := by omega
    subst h0
    simp [readLoop]
  | fuel + 1, k, c, rem, clu, secleft, lba, acc, hc, hf, hb => by
    by_cases h1 : rem = 0
    · subst h1
      simp [readLoop]
    · cases secleft with
      | succ s =>
        rw [readLoop]
        dsimp only
        rw [if_neg h1, if_pos (by omega : s + 1 ≠ 0)]
        rw [aheadSectors] at hb ⊢
        rw [List.flatMap_cons]
        simp only [List.drop_zero, Nat.succ_sub_one]
        rw [List.length_cons] at hb
        by_cases hbr : 512 > rem
        · rw [if_pos hbr]
          rw [readLoop_exact v hspc fuel k c (rem - rem) clu s (lba + 1)
            (acc ++ (sectorBytes v (lba + 1)).take rem) hc (by omega) (by omega)]
          rw [List.take_append_of_le_length (by rw [sectorBytes_length]; omega)]
          simp
        · rw [if_neg hbr]
          rw [readLoop_exact v hspc fuel k c (rem - 512) clu s (lba + 1)
            (acc ++ (sectorBytes v (lba + 1)).take 512) hc (by omega) (by omega)]
          rw [List.take_of_length_le
            (show (sectorBytes v (lba + 1)).length ≤ 512 from by rw [sectorBytes_length])]
          rw [List.take_append_eq_append_take, sectorBytes_length]
          rw [List.take_of_length_le
            (show (sectorBytes v (lba + 1)).length ≤ rem from by
              rw [sectorBytes_length]; omega)]
          rw [List.append_assoc]
      | zero =>
        rw [readLoop]
        dsimp only
        rw [if_neg h1, if_neg (by omega : ¬((0 : Nat) ≠ 0))]
        by_cases hcl : clu = 0
        · exfalso
          cases k with
          | zero =>
            simp only [aheadSectors] at hb
            simp at hb
            omega
          | succ k2 =>
            rw [aheadSectors, if_pos hcl] at hb
            simp at hb
            omega
        · rw [if_neg hcl]
          cases k with
          | zero =>
            exfalso
            simp only [aheadSectors] at hb
            simp at hb
            omega
          | succ k2 =>
            rw [aheadSectors, if_neg hcl] at hb ⊢
            rcases hbc : biosNextclu v c clu with ⟨cluN, c2⟩
            have hp := biosNextclu_pure v c clu hc
            rw [hbc] at hp
            dsimp only at hp ⊢
            rw [List.flatMap_cons]
            simp only [List.drop_zero]
            rw [List.length_cons] at hb
            rw [hp.1]
            by_cases hbr : 512 > rem
            · rw [if_pos hbr]
              rw [readLoop_exact v hspc fuel k2 c2 (rem - rem) (nextcluPure v clu)
                (v.bpb.spc - 1) (clu * v.bpb.spc + dataLba v)
                (acc ++ (sectorBytes v (clu * v.bpb.spc + dataLba v)).take rem)
                hp.2 (by omega) (by omega)]
              rw [List.take_append_of_le_length (by rw [sectorBytes_length]; omega)]
              simp
            · rw [if_neg hbr]
              rw [readLoop_exact v hspc fuel k2 c2 (rem - 512) (nextcluPure v clu)
                (v.bpb.spc - 1) (clu * v.bpb.spc + dataLba v)
                (acc ++ (sectorBytes v (clu * v.bpb.spc + dataLba v)).take 512)
                hp.2 (by omega) (by omega)]
              rw [List.take_of_length_le
                (show (sectorBytes v (clu * v.bpb.spc + dataLba v)).length ≤ 512 from by
                  rw [sectorBytes_length])]
              rw [List.take_append_eq_append_take, sectorBytes_length]
              rw [List.take_of_length_le
                (show (sectorBytes v (clu * v.bpb.spc + dataLba v)).length ≤ rem from by
                  rw [sectorBytes_length]; omega)]
              rw [List.append_assoc]

theorem flatMap_sectorBytes_length (v : Vol) :
    ∀ (xs : List Nat), (xs.flatMap (sectorBytes v)).length = 512 * xs.length
  | [] => rfl
  | x :: xs => by
    rw [List.flatMap_cons, List.length_append, sectorBytes_length,
      flatMap_sectorBytes_length v xs, List.length_cons]
    ring

theorem mountCache_ok (v : Vol) : CacheOK v (mountCache v) := by
  constructor
  · rfl
  · intro j hj
    simp [mountCache, fatEntry]

theorem biosRead_chain (v : Vol) (hspc : 1 ≤ v.bpb.spc) (c : FatCache)
    (hc : CacheOK v c) (clu sz k : Nat) (hclu : 2 ≤ clu)
    (hsz : sz ≤ (chainBytes v k clu).length) (hsznz : sz ≠ 0) :
    (biosRead v c clu sz true 0 sz).1 = (sz, (chainBytes v k clu).take sz) := by
  have hchain : chainBytes v k clu =
      (aheadSectors v k 0 0 clu).flatMap (sectorBytes v) := by
    rw [aheadSectors_chain v hspc k clu 0]
    rfl
  unfold biosRead
  rw [if_neg (by
    push_neg
    exact ⟨by omega, by omega, hsznz, rfl⟩)]
  dsimp only
  rw [if_neg (by omega : ¬(0 : Nat) ≠ 0)]
  have hs2 : (if sz < 0 + sz then sz - 0 else sz) = sz := by simp
  rw [hs2]
  rcases hR : readLoop v sz c sz clu 0 0 0 512 [] with ⟨⟨rem, bytes⟩, c3⟩
  dsimp only
  have hE := readLoop_exact v hspc sz k c sz clu 0 0 [] hc (le_refl sz) (by
    rw [hchain, flatMap_sectorBytes_length] at hsz
    omega)
  rw [hR] at hE
  dsimp only at hE
  have h1 : rem = 0 := congrArg Prod.fst hE
  have h2 : bytes = ((aheadSectors v k 0 0 clu).flatMap (sectorBytes v)).take sz := by
    have := congrArg Prod.snd hE
    simpa using this
  rw [h1, h2, hchain]
  simp

/-- C8: when `bios_open` resolves a path to a file with start cluster
`clu` and size `sz`, `bios_read(0, sz, buf)` returns exactly `sz` and the
first `sz` bytes stored in the cluster chain of `clu` (the file's byte
sequence).  The volume hypotheses: at least one sector per cluster, a
coherent FAT cache, `clu` a valid data cluster, and the chain long enough
to hold the file. -/
theorem open_read_chain (v : Vol) (c : FatCache) (path : List Nat)
    (fuel k clu sz : Nat) (hspc : 1 ≤ v.bpb.spc) (hc : CacheOK v c)
    (hopen : (biosOpen v c path fuel).1 = some (clu, sz))
    (hclu : 2 ≤ clu) (hsz : sz ≤ (chainBytes v k clu).length) :
    (biosRead v (biosOpen v c path fuel).2 clu sz true 0 sz).1 =
      (sz, (chainBytes v k clu).take sz) := by
  by_cases hz : sz = 0
  · subst hz
    rw [show biosRead v (biosOpen v c path fuel).2 clu 0 true 0 0 =
        ((0, []), (biosOpen v c path fuel).2) from by
      unfold biosRead
      rw [if_pos (Or.inr (Or.inr (Or.inl rfl)))]]
    simp
  · exact biosRead_chain v hspc (biosOpen v c path fuel).2
      (biosOpen_cacheOK v c path fuel hc) clu sz k hclu hsz hz

/-- Witness for `open_read_chain` on the demo volume: the file `X`
(cluster 3, 5 bytes `HELLO`). -/
theorem open_read_chain_witness :
    (1 ≤ demoVol.bpb.spc
  ∧ CacheOK demoVol (mountCache demoVol)
  ∧ (biosOpen demoVol (mountCache demoVol) [88] 20).1 = some (3, 5)
  ∧ 2 ≤ 3 ∧ 5 ≤ (chainBytes demoVol 1 3).length)
  ∧ (biosRead demoVol (biosOpen demoVol (mountCache demoVol) [88] 20).2 3 5 true 0 5).1 =
      (5, (chainBytes demoVol 1 3).take 5) :=
  ⟨⟨by decide, mountCache_ok demoVol, by decide, by decide, by decide⟩,
   open_read_chain demoVol (mountCache demoVol) [88] 20 1 3 5 (by decide)
     (mountCache_ok demoVol) (by decide) (by decide) (by decide)⟩

/-- Witness for `read_never_past_eof`: the BIOS path on the demo volume,
reading 10 bytes at offset 3 of a 5-byte file. -/
theorem read_never_past_eof_witness :
    ((5 : Nat) ≤ ([72, 69, 76, 76, 79] : List Nat).length)
  ∧ (((5 : Nat) ≤ 3 ∨ (10 : Nat) = 0 ∨ (true = false) →
      fwRead false true demoVol (mountCache demoVol) 3 [72, 69, 76, 76, 79] 5 true 0 3 10 =
        ((0, []), mountCache demoVol))
    ∧ (fwRead false true demoVol (mountCache demoVol) 3 [72, 69, 76, 76, 79] 5 true 0 3 10).1.1 ≤
        5 - 3
    ∧ (false = true → true = true → true = true → 3 < 5 → (10 : Nat) ≠ 0 →
        (fwRead false true demoVol (mountCache demoVol) 3 [72, 69, 76, 76, 79] 5 true 0 3 10).1 =
          ((if (5 : Nat) < 3 + 10 then 5 - 3 else 10),
           (([72, 69, 76, 76, 79] : List Nat).drop 3).take
             (if (5 : Nat) < 3 + 10 then 5 - 3 else 10)))
    ∧ (false = false →
        (fwRead false true demoVol (mountCache demoVol) 3 [72, 69, 76, 76, 79] 5 true 0 3 10).1.2.length =
          (fwRead false true demoVol (mountCache demoVol) 3 [72, 69, 76, 76, 79] 5 true 0 3 10).1.1)) :=
  ⟨by decide,
   read_never_past_eof false true demoVol (mountCache demoVol) 3 [72, 69, 76, 76, 79] 5
     true 0 3 10 (by decide)⟩

end Simpleboot
